import Mathlib

/-!
Verification of the navigation-log data-management core of the
Ranger-CVA61 repository (`js/core/data-manager.js`,
`js/navigation/distance.js`, `js/coordinate-utils.js`, shallowly embedded
in Lean 4).

Modelling conventions:
* JavaScript numbers that carry coordinates are modelled as `ℚ`
  (the source arithmetic on them is `+ - * /`, `Math.floor`, `Math.ceil`
  and comparisons; IEEE-754 rounding is idealised away).
* Timestamps (`Date.now()` values) and record ids are modelled as `Int`.
* A JavaScript `Map` is modelled as an insertion-ordered association list
  (`List (κ × α)`): `jGet` finds the first binding, `jSet` overwrites the
  first binding in place or appends, `jDelete` removes the binding.
  JavaScript maps never hold a duplicate key, and starting from the empty
  list these operations never create one.
* A record object is a structure whose optional fields use `Option`
  (`none` = property absent / `undefined`).
* The `cache` and `cacheTimestamps` maps of the source are kept in perfect
  sync by every code path (`_setCached`, `_getCached`, `_evictOldestCache`
  and `_invalidateCaches` always touch both); they are modelled as one
  association list from key to (payload, insertion timestamp).
* The coordinate memoisation cache (`coordinateCache`) caches a pure
  function keyed by the exact input strings, so `_getCachedCoordinates`
  always returns the same value as direct parsing; it is modelled as the
  pure function `dmCoords` and the cache itself is not threaded through.
* The `metrics` counters and the `setInterval` background cleanup are not
  modelled: no claim mentions them and they do not influence any result.
-/

namespace RangerCVA61

/-- Membership-ordered association list lookup: first binding wins,
like `Map.get`. -/
def jGet {κ α : Type} [DecidableEq κ] : List (κ × α) → κ → Option α
  | [], _ => none
  | (k', v) :: t, k => if k' = k then some v else jGet t k

/-- `Map.set`: overwrite the first binding in place, else append. -/
def jSet {κ α : Type} [DecidableEq κ] : List (κ × α) → κ → α → List (κ × α)
  | [], k, v => [(k, v)]
  | (k', v') :: t, k, v => if k' = k then (k, v) :: t else (k', v') :: jSet t k v

/-- `Map.delete`: remove the binding for the key.  A JavaScript map holds
at most one binding per key; removing all occurrences coincides with
removing the first one on every map built with `jSet` from `[]`. -/
def jDelete {κ α : Type} [DecidableEq κ] (m : List (κ × α)) (k : κ) : List (κ × α) :=
  m.filter (fun p => !(decide (p.1 = k)))

/-- The inclusive integer range `[a..b]`, the values taken by
`for (let x = a; x <= b; x++)`. -/
def intRange (a b : Int) : List Int :=
  (List.range (b + 1 - a).toNat).map (fun (i : Nat) => a + (i : Int))

/-- `String.prototype.startsWith`, written out over character lists. -/
def startsWithChars : List Char → List Char → Bool
  | _, [] => true
  | [], _ :: _ => false
  | c :: t, p :: q => c = p && startsWithChars t q

/-- Key prefix test used by `_invalidateCaches` (`key.startsWith(category)`). -/
def jsStartsWith (s pre : String) : Bool :=
  startsWithChars s.toList pre.toList

/-- The apostrophe character `U+0027`, the minute mark of the coordinate
syntax. -/
def minuteMark : Char := Char.ofNat 39

/-- Numeric value of a list of decimal digit characters
(`parseInt(digits, 10)`). -/
def digitsVal (l : List Char) : Nat :=
  l.foldl (fun acc c => 10 * acc + (c.toNat - 48)) 0

/-- Value of the decimal-fraction digits after the dot:
`digits / 10 ^ length` (`parseFloat` of the fractional part, exact). -/
def fracVal (l : List Char) : ℚ :=
  (digitsVal l : ℚ) / (10 : ℚ) ^ l.length

/-- Match the regex fragment `(\d+\.?\d*)` greedily: the integer value of
the leading digits, the fractional digit characters after the optional
dot, and the rest of the input.  Fails when no digit is present.  Greedy
matching with no backtracking coincides with the regex here because every
backtracking alternative leaves a digit in a position where a non-digit
is required. -/
def matchMinuteDigits (cs : List Char) : Option ((Nat × List Char) × List Char) :=
  let (ds, rest) := cs.span Char.isDigit
  if ds.isEmpty then none
  else
    match rest with
    | '.' :: r =>
        let (fs, r2) := r.span Char.isDigit
        some ((digitsVal ds, fs), r2)
    | _ => some ((digitsVal ds, []), rest)

/-- `parseFloat` of a matched minutes group, exact: integer part plus
fractional digits over the matching power of ten. -/
def minutesVal (mi : Nat) (fs : List Char) : ℚ :=
  (mi : ℚ) + fracVal fs

/-- Direction letter class `[NSEW]`. -/
def isDirChar (c : Char) : Bool :=
  c = 'N' || c = 'S' || c = 'E' || c = 'W'

/-- Signed decimal degrees from parsed components: `degrees + minutes/60`,
negated for `S`/`W`. -/
def signedDecimal (deg : Nat) (minutes : ℚ) (dir : Char) : ℚ :=
  let dec : ℚ := (deg : ℚ) + minutes / 60
  if dir = 'S' ∨ dir = 'W' then -dec else dec

/-- The character-level match of the anchored coordinate regex of
`CoordinateUtils.parseCoordinate` (integer degrees, degree sign, decimal
minutes, minute mark, direction letter, end of input): degrees value,
minutes components, direction letter. -/
def cuScan (s : String) : Option (Nat × (Nat × List Char) × Char) :=
  let cs := s.toList
  let (ds, rest) := cs.span Char.isDigit
  if ds.isEmpty then none
  else
    match rest with
    | '°' :: rest2 =>
        match matchMinuteDigits rest2 with
        | none => none
        | some (m, rest3) =>
            match rest3 with
            | q :: d :: [] =>
                if q = minuteMark ∧ isDirChar d then some (digitsVal ds, m, d)
                else none
            | _ => none
    | _ => none

/-- `CoordinateUtils.parseCoordinate` (coordinate-utils module): the
anchored regex match, then the explicit `minutes >= 60` rejection, then
signed decimal degrees. -/
def parseCoordinate (s : String) : Option ℚ :=
  match cuScan s with
  | none => none
  | some (deg, m, dir) =>
      if 60 ≤ minutesVal m.1 m.2 then none
      else some (signedDecimal deg (minutesVal m.1 m.2) dir)

/-- One attempt of the data-manager coordinate regex at the head of the
input.  The source file's regex literally contains the two characters
`Â°` (a mojibake of the degree sign), the match is not anchored at
either end, and there is no bound on the minutes value. -/
def dmScanAt (cs : List Char) : Option (Nat × (Nat × List Char) × Char) :=
  let (ds, rest) := cs.span Char.isDigit
  if ds.isEmpty then none
  else
    match rest with
    | 'Â' :: '°' :: rest2 =>
        match matchMinuteDigits rest2 with
        | none => none
        | some (m, rest3) =>
            match rest3 with
            | q :: d :: _ =>
                if q = minuteMark ∧ isDirChar d then some (digitsVal ds, m, d)
                else none
            | _ => none
    | _ => none

/-- Leftmost unanchored search for the data-manager coordinate regex. -/
def dmSearch : List Char → Option (Nat × (Nat × List Char) × Char)
  | [] => none
  | c :: rest =>
      match dmScanAt (c :: rest) with
      | some v => some v
      | none => dmSearch rest

/-- `NavigationDataManager._parseCoordinate`: unanchored search with the
mojibake degree sign and no minutes-range check. -/
def dmParseCoordinate (s : String) : Option ℚ :=
  (dmSearch s.toList).map (fun p => signedDecimal p.1 (minutesVal p.2.1.1 p.2.1.2) p.2.2)

/-- Lexicographic strict comparison of character lists by code point,
the order JavaScript's `<` induces on strings. -/
def strLtB : List Char → List Char → Bool
  | [], [] => false
  | [], _ :: _ => true
  | _ :: _, [] => false
  | a :: as, b :: bs => if a < b then true else if b < a then false else strLtB as bs

/-- Non-strict counterpart of `strLtB`. -/
def strLeB (a b : List Char) : Bool :=
  !(strLtB b a)

/-- A navigation log record as stored by the data manager.  Every store
record has a numeric `id`; the remaining properties may be absent
(`none` = the object has no such property / it is `undefined`). -/
structure Rec where
  id : Int
  entryTimestamp : Option Int := none
  lastModified : Option Int := none
  logDate : Option String := none
  positionTime : Option String := none
  latitude : Option String := none
  longitude : Option String := none
  remarks : Option String := none
  isImportant : Option Bool := none
  associatedUrl : Option String := none
  deriving DecidableEq, Repr

/-- The argument object of `addNavigationLog` / `updateNavigationLog`: a
plain object whose properties, when present, override the defaults of the
object literal via spread (`{defaults, ...logData}`). -/
structure LogData where
  id : Option Int := none
  entryTimestamp : Option Int := none
  lastModified : Option Int := none
  logDate : Option String := none
  positionTime : Option String := none
  latitude : Option String := none
  longitude : Option String := none
  remarks : Option String := none
  isImportant : Option Bool := none
  associatedUrl : Option String := none
  deriving DecidableEq, Repr

/-- `_getCachedCoordinates(log)`: parse both coordinate strings with the
data manager's own parser; any failure (including an absent property, on
which the source would throw a `TypeError` before touching any index —
modelled as "no coordinate") yields `none`. -/
def dmCoords (r : Rec) : Option (ℚ × ℚ) :=
  match r.latitude, r.longitude with
  | some la, some lo =>
      match dmParseCoordinate la, dmParseCoordinate lo with
      | some lat, some lon => some (lat, lon)
      | _, _ => none
  | _, _ => none

/-- `this.gridSize = 0.5`. -/
def gridSize : ℚ := 1 / 2

/-- The spatial grid key of a record: `(floor(lon/gridSize), floor(lat/gridSize))`,
matching the template `${gridX},${gridY}` with `gridX` from longitude. -/
def gridCellOf (r : Rec) : Option (Int × Int) :=
  (dmCoords r).map (fun c => (⌊c.2 / gridSize⌋, ⌊c.1 / gridSize⌋))

/-- The sort key of the chronological comparator
`new Date(logDate + "T" + positionTime)`: the `(logDate, positionTime)`
string pair as character lists.  For ISO `YYYY-MM-DD` dates and `HH:MM`
times, `Date` subtraction orders records exactly like the lexicographic
order on this pair, which is how the comparator is modelled.  An absent
property is read as the empty string. -/
def chronoKey (r : Rec) : List Char × List Char :=
  ((r.logDate.getD "").toList, (r.positionTime.getD "").toList)

/-- Comparator outcome `<= 0` of the chronological sort: lexicographic
on the `(logDate, positionTime)` pair. -/
def chronoLe (a b : Rec) : Bool :=
  if strLtB (chronoKey a).1 (chronoKey b).1 then true
  else if strLtB (chronoKey b).1 (chronoKey a).1 then false
  else strLeB (chronoKey a).2 (chronoKey b).2

/-- Stable insertion of one record into a sorted run: the record under
insertion originally precedes every element of the run, so it is placed
before the first element it compares `<=` to.  Any stable sort computes
the same list as JavaScript's `Array.prototype.sort` (stable per the
ECMAScript specification) for a consistent comparator. -/
def insertChrono (r : Rec) : List Rec → List Rec
  | [] => [r]
  | x :: t => if chronoLe r x = true then r :: x :: t else x :: insertChrono r t

/-- The chronological sort
`[...navigationLogs].sort((a,b) => new Date(...) - new Date(...))`,
modelled as a stable insertion sort on `chronoKey`. -/
def chronoSort : List Rec → List Rec
  | [] => []
  | r :: t => insertChrono r (chronoSort t)

/-- The widening envelope `spatialBounds`. -/
structure SpatialBounds where
  minLat : ℚ
  maxLat : ℚ
  minLon : ℚ
  maxLon : ℚ
  deriving DecidableEq, Repr

/-- `_updateSpatialBounds(coords)`. -/
def updateSpatialBounds (b : SpatialBounds) (lat lon : ℚ) : SpatialBounds :=
  { minLat := if lat < b.minLat then lat else b.minLat
    maxLat := if b.maxLat < lat then lat else b.maxLat
    minLon := if lon < b.minLon then lon else b.minLon
    maxLon := if b.maxLon < lon then lon else b.maxLon }

/-- `cacheConfig.ttl`. -/
def cacheTTL : Int := 300000

/-- `cacheConfig.maxSize`. -/
def cacheMaxSize : Nat := 1000

/-- The mutable state of a `NavigationDataManager` instance.  The
`cache`/`cacheTimestamps` pair is one association list from signature to
(payload, insertion instant); `metrics` and the interval timer are not
modelled. -/
structure DMState where
  navigationLogs : List Rec
  logsById : List (Int × Rec)
  logsByDate : List (Option String × List Rec)
  chronologicalIndex : List Rec
  chronologicalDirty : Bool
  spatialGrid : List ((Int × Int) × List Rec)
  spatialBounds : SpatialBounds
  cache : List (String × (List Rec × Int))
  deriving DecidableEq, Repr

attribute [ext] DMState

/-- The constructor's initial state. -/
def initState : DMState :=
  { navigationLogs := []
    logsById := []
    logsByDate := []
    chronologicalIndex := []
    chronologicalDirty := true
    spatialGrid := []
    spatialBounds := { minLat := 90, maxLat := -90, minLon := 180, maxLon := -180 }
    cache := [] }

/-- `_getCached(key)` at instant `now`: a missing or expired entry is a
miss (the expired entry is evicted eagerly); otherwise the payload is
returned. -/
def getCached (s : DMState) (now : Int) (key : String) : Option (List Rec) × DMState :=
  match jGet s.cache key with
  | none => (none, { s with cache := jDelete s.cache key })
  | some (v, ts) =>
      if cacheTTL < now - ts then (none, { s with cache := jDelete s.cache key })
      else (some v, s)

/-- The scan of `_evictOldestCache()`: the key of the entry with the
strictly smallest insertion instant older than `now`, first such entry in
iteration order. -/
def oldestCacheKey (m : List (String × (List Rec × Int))) (now : Int) : Option String :=
  (m.foldl
    (fun acc p => if p.2.2 < acc.2 then (some p.1, p.2.2) else acc)
    ((none : Option String), now)).1

/-- `_evictOldestCache()`: delete the entry found by the scan, if any. -/
def evictOldestCache (s : DMState) (now : Int) : DMState :=
  match oldestCacheKey s.cache now with
  | some k => { s with cache := jDelete s.cache k }
  | none => s

/-- `_setCached(key, value)`: evict when at capacity, then store with the
current instant (the `ttl` argument of the source is ignored by the
source itself; all entries expire against `cacheConfig.ttl`). -/
def setCached (s : DMState) (now : Int) (key : String) (v : List Rec) : DMState :=
  let s1 := if cacheMaxSize ≤ s.cache.length then evictOldestCache s now else s
  { s1 with cache := jSet s1.cache key (v, now) }

/-- The cache filter applied by every add/update/delete:
`_invalidateCaches(["chronological", "dateRange"])` removes exactly the
entries whose signature starts with one of those two prefixes. -/
def mutationInvalidate (m : List (String × (List Rec × Int))) :
    List (String × (List Rec × Int)) :=
  m.filter (fun p =>
    !(jsStartsWith p.1 "chronological" || jsStartsWith p.1 "dateRange"))

/-- `_invalidateCaches(categories)`: `"all"` clears the cache; otherwise
every entry whose signature starts with one of the category prefixes is
removed. -/
def invalidateCaches (s : DMState) (categories : List String) : DMState :=
  if categories.contains "all" then { s with cache := [] }
  else
    { s with cache :=
        (s.cache.filter (fun p => !(categories.any (fun c => jsStartsWith p.1 c)))) }

/-- `findIndex(l => l.id === id)` followed by `splice(index, 1)`:
the removed element and the remaining list, or `none` when no element
matches. -/
def removeFirstById : List Rec → Int → Option (Rec × List Rec)
  | [], _ => none
  | r :: t, i =>
      if r.id = i then some (r, t)
      else (removeFirstById t i).map (fun p => (p.1, r :: p.2))

/-- The bucket of an index map at a key (the empty list when the map has
no entry for the key, matching `map.get(k) || []`). -/
def bucketAt {κ : Type} [DecidableEq κ] (m : List (κ × List Rec)) (k : κ) : List Rec :=
  (jGet m k).getD []

/-- Append one record to the bucket at a key, creating the bucket when it
does not exist yet (`if (!m.has(k)) m.set(k, []); m.get(k).push(log)`). -/
def bucketAppend {κ : Type} [DecidableEq κ] (m : List (κ × List Rec)) (k : κ) (log : Rec) :
    List (κ × List Rec) :=
  jSet m k (bucketAt m k ++ [log])

/-- Remove the first record with the given id from the bucket at a key,
deleting the bucket when it empties; no change when the key or the id is
not found.  This is the bucket-removal discipline shared by the by-date
and spatial-grid halves of `_removeFromIndexes`. -/
def bucketRemove {κ : Type} [DecidableEq κ] (m : List (κ × List Rec)) (k : κ) (i : Int) :
    List (κ × List Rec) :=
  match jGet m k with
  | some logs =>
      match removeFirstById logs i with
      | some p => if p.2.isEmpty then jDelete m k else jSet m k p.2
      | none => m
  | none => m

/-- `_updateIndexes(log, skipSpatialBounds)`: one record update touching
the by-id map, the by-date bucket, the spatial envelope and grid (only
when the coordinates parse), and the dirty flag — the fields the source
mutates one after the other. -/
def updateIndexes (s : DMState) (log : Rec) (skipSpatialBounds : Bool) : DMState :=
  { s with
    logsById := jSet s.logsById log.id log
    logsByDate := bucketAppend s.logsByDate log.logDate log
    spatialBounds :=
      match dmCoords log with
      | some c =>
          if skipSpatialBounds then s.spatialBounds
          else updateSpatialBounds s.spatialBounds c.1 c.2
      | none => s.spatialBounds
    spatialGrid :=
      match dmCoords log with
      | some c => bucketAppend s.spatialGrid (⌊c.2 / gridSize⌋, ⌊c.1 / gridSize⌋) log
      | none => s.spatialGrid
    chronologicalDirty := true }

/-- `_removeFromIndexes(log)`: remove from `logsById`, from the log's
date bucket, and from the log's spatial cell, then mark the view dirty. -/
def removeFromIndexes (s : DMState) (log : Rec) : DMState :=
  { s with
    logsById := jDelete s.logsById log.id
    logsByDate := bucketRemove s.logsByDate log.logDate log.id
    spatialGrid :=
      match dmCoords log with
      | some c => bucketRemove s.spatialGrid (⌊c.2 / gridSize⌋, ⌊c.1 / gridSize⌋) log.id
      | none => s.spatialGrid
    chronologicalDirty := true }

/-- The record built by `addNavigationLog`: the object literal
`{id: Date.now(), entryTimestamp: Date.now(), ...logData}` — a property
present on `logData` overrides the literal's default. -/
def addRecOf (now : Int) (data : LogData) : Rec :=
  { id := data.id.getD now
    entryTimestamp := some (data.entryTimestamp.getD now)
    lastModified := data.lastModified
    logDate := data.logDate
    positionTime := data.positionTime
    latitude := data.latitude
    longitude := data.longitude
    remarks := data.remarks
    isImportant := data.isImportant
    associatedUrl := data.associatedUrl }

/-- `addNavigationLog(logData)` at instant `now`. -/
def addNavigationLog (s : DMState) (now : Int) (data : LogData) : Rec × DMState :=
  let newLog : Rec := addRecOf now data
  let s := { s with navigationLogs := s.navigationLogs ++ [newLog] }
  let s := updateIndexes s newLog false
  let s := invalidateCaches s ["chronological", "dateRange"]
  (newLog, s)

/-- `oldLog.entryTimestamp || Date.now()` — `undefined` and `0` are falsy. -/
def jsOrNow (o : Option Int) (now : Int) : Int :=
  match o with
  | some t => if t = 0 then now else t
  | none => now

/-- The replacement record of `updateNavigationLog`: the literal
`{id: parseInt(id), entryTimestamp: old || now, lastModified: now, ...logData}`.
Every property of the old record that `logData` does not supply — other
than the three literal defaults — is dropped, not preserved. -/
def mkUpdatedLog (oldLog : Rec) (now : Int) (idArg : Int) (data : LogData) : Rec :=
  { id := data.id.getD idArg
    entryTimestamp := some (data.entryTimestamp.getD (jsOrNow oldLog.entryTimestamp now))
    lastModified := some (data.lastModified.getD now)
    logDate := data.logDate
    positionTime := data.positionTime
    latitude := data.latitude
    longitude := data.longitude
    remarks := data.remarks
    isImportant := data.isImportant
    associatedUrl := data.associatedUrl }

/-- `findIndex` on the store followed by in-place replacement
`navigationLogs[index] = updatedLog`: returns the old record, the new
record and the updated store. -/
def replaceFirstById (now : Int) (idArg : Int) (data : LogData) :
    List Rec → Option (Rec × Rec × List Rec)
  | [] => none
  | r :: t =>
      if r.id = idArg then
        let u := mkUpdatedLog r now idArg data
        some (r, u, u :: t)
      else (replaceFirstById now idArg data t).map (fun p => (p.1, p.2.1, r :: p.2.2))

/-- `updateNavigationLog(id, logData)` at instant `now`; `none` when the
id matches no record, in which case the state is untouched. -/
def updateNavigationLog (s : DMState) (now : Int) (idArg : Int) (data : LogData) :
    Option Rec × DMState :=
  match replaceFirstById now idArg data s.navigationLogs with
  | none => (none, s)
  | some (oldLog, updatedLog, logs) =>
      let s := { s with navigationLogs := logs }
      let s := removeFromIndexes s oldLog
      let s := updateIndexes s updatedLog false
      let s := invalidateCaches s ["chronological", "dateRange"]
      (some updatedLog, s)

/-- `deleteNavigationLog(id)`: `false` when the id matches no record, in
which case the state is untouched. -/
def deleteNavigationLog (s : DMState) (idArg : Int) : Bool × DMState :=
  match removeFirstById s.navigationLogs idArg with
  | none => (false, s)
  | some (logToDelete, logs) =>
      let s := { s with navigationLogs := logs }
      let s := removeFromIndexes s logToDelete
      let s := invalidateCaches s ["chronological", "dateRange"]
      (true, s)

/-- `log.logDate >= startDate && log.logDate <= endDate`; comparison with
an absent property is false. -/
def inDateRange (r : Rec) (startDate endDate : String) : Bool :=
  match r.logDate with
  | some d => strLeB startDate.toList d.toList && strLeB d.toList endDate.toList
  | none => false

/-- `getLogsByDate(date)`: cached single-day lookup (the source caches
the live bucket array; modelled as a snapshot, which no claim observes). -/
def getLogsByDate (s : DMState) (now : Int) (date : String) :
    List Rec × Bool × DMState :=
  let key := "date_" ++ date
  match getCached s now key with
  | (some v, s1) => (v, true, s1)
  | (none, s1) =>
      let logs := (jGet s1.logsByDate (some date)).getD []
      (logs, false, setCached s1 now key logs)

/-- `getLogsByDateRange(startDate, endDate)`: the boolean reports whether
the payload came from the cache. -/
def getLogsByDateRange (s : DMState) (now : Int) (startDate endDate : String) :
    List Rec × Bool × DMState :=
  let key := "dateRange_" ++ startDate ++ "_" ++ endDate
  match getCached s now key with
  | (some v, s1) => (v, true, s1)
  | (none, s1) =>
      let filteredLogs := s1.navigationLogs.filter (fun r => inDateRange r startDate endDate)
      (filteredLogs, false, setCached s1 now key filteredLogs)

/-- The rebuild branch of `getChronologicalLogs`. -/
def chronoRebuild (s : DMState) (now : Int) : List Rec × DMState :=
  let sortedLogs := chronoSort s.navigationLogs
  let s := { s with chronologicalIndex := sortedLogs, chronologicalDirty := false }
  (sortedLogs, setCached s now "chronological_all" sortedLogs)

/-- `getChronologicalLogs()`: clean-index fast path, then cache, then
lazy rebuild. -/
def getChronologicalLogs (s : DMState) (now : Int) : List Rec × DMState :=
  if s.chronologicalDirty = false ∧ s.chronologicalIndex.length = s.navigationLogs.length then
    (s.chronologicalIndex, s)
  else
    match getCached s now "chronological_all" with
    | (some v, s1) =>
        if s1.chronologicalDirty = false then (v, s1) else chronoRebuild s1 now
    | (none, s1) => chronoRebuild s1 now

/-- The exact containment re-check applied to every grid candidate. -/
def inBox (sw ne : ℚ × ℚ) (r : Rec) : Bool :=
  match dmCoords r with
  | some c => sw.1 ≤ c.1 ∧ c.1 ≤ ne.1 ∧ sw.2 ≤ c.2 ∧ c.2 ≤ ne.2
  | none => false

/-- The cache signature
`bounds_${sw.lat}_${sw.lon}_${ne.lat}_${ne.lon}` (number-to-string
rendering differs from JavaScript's but is deterministic and keeps the
`bounds_` prefix). -/
def boundsKey (ne sw : ℚ × ℚ) : String :=
  "bounds_" ++ toString sw.1 ++ "_" ++ toString sw.2 ++ "_" ++
    toString ne.1 ++ "_" ++ toString ne.2

/-- `getLogsInBounds(northEast, southWest)`: consult the cache, reject
early when the box misses the tracked envelope, otherwise sweep the grid
cells overlapping the box and keep the candidates whose exact parsed
coordinates lie inside the box. -/
def getLogsInBounds (s : DMState) (now : Int) (ne sw : ℚ × ℚ) :
    List Rec × DMState :=
  let key := boundsKey ne sw
  match getCached s now key with
  | (some v, s1) => (v, s1)
  | (none, s1) =>
      if s1.spatialBounds.maxLat < sw.1 ∨ ne.1 < s1.spatialBounds.minLat ∨
         s1.spatialBounds.maxLon < sw.2 ∨ ne.2 < s1.spatialBounds.minLon then
        ([], s1)
      else
        let minGridX := ⌊sw.2 / gridSize⌋
        let maxGridX := ⌈ne.2 / gridSize⌉
        let minGridY := ⌊sw.1 / gridSize⌋
        let maxGridY := ⌈ne.1 / gridSize⌉
        let logsInBounds :=
          (intRange minGridX maxGridX).flatMap (fun x =>
            (intRange minGridY maxGridY).flatMap (fun y =>
              ((jGet s1.spatialGrid (x, y)).getD []).filter (inBox sw ne)))
        (logsInBounds, setCached s1 now key logsInBounds)

/-- `DistanceCalculator.distanceToLineSegment(px, py, x1, y1, x2, y2)`
(distance.js).  The geodesic primitive `calculateDistance` (the haversine
formula, transcendental) is passed in as the parameter `calcDist`, taking
`(lat1, lon1, lat2, lon2)` exactly as the source calls
`this.calculateDistance`; the projection logic under verification is
untouched.  `param` is only computed behind the `lenSq === 0` guard, so
the division below is reached only with a nonzero denominator. -/
def distanceToLineSegment (calcDist : ℚ → ℚ → ℚ → ℚ → ℚ)
    (px py x1 y1 x2 y2 : ℚ) : ℚ :=
  let A := px - x1
  let B := py - y1
  let C := x2 - x1
  let D := y2 - y1
  let dot := A * C + B * D
  let lenSq := C * C + D * D
  if lenSq = 0 then calcDist py px y1 x1
  else
    let param := dot / lenSq
    let xx := if param < 0 then x1 else if 1 < param then x2 else x1 + param * C
    let yy := if param < 0 then y1 else if 1 < param then y2 else y1 + param * D
    calcDist py px yy xx

/-- One externally triggered operation on a live data manager, tagged
with the `Date.now()` instant at which it runs. -/
inductive Op where
  | add (now : Int) (data : LogData)
  | update (now : Int) (idArg : Int) (data : LogData)
  | delete (idArg : Int)
  | qDate (now : Int) (date : String)
  | qDateRange (now : Int) (startDate endDate : String)
  | qChrono (now : Int)
  | qBounds (now : Int) (ne sw : ℚ × ℚ)
  deriving DecidableEq, Repr

/-- State transition of one operation (query results discarded). -/
def step (s : DMState) : Op → DMState
  | .add now data => (addNavigationLog s now data).2
  | .update now idArg data => (updateNavigationLog s now idArg data).2
  | .delete idArg => (deleteNavigationLog s idArg).2
  | .qDate now date => (getLogsByDate s now date).2.2
  | .qDateRange now a b => (getLogsByDateRange s now a b).2.2
  | .qChrono now => (getChronologicalLogs s now).2
  | .qBounds now ne sw => (getLogsInBounds s now ne sw).2

/-- Run a sequence of operations. -/
def run (s : DMState) : List Op → DMState
  | [] => s
  | op :: ops => run (step s op) ops

/-- The ids of the records currently in the store. -/
def storeIds (s : DMState) : List Int :=
  s.navigationLogs.map (fun r => r.id)

/-- Well-formedness of one operation against the current state, exactly
the discipline the surrounding application obeys: `add` and `update`
always supply the four string fields the entry form always fills in
(`logDate`, `positionTime`, `latitude`, `longitude`); an `add` never
supplies an id colliding with a live record (the spec's id-uniqueness
invariant: a deleted id may be supplied again); an `update` never changes
the id of the record it touches. -/
def opOK (s : DMState) : Op → Bool
  | .add now data =>
      data.logDate.isSome && data.positionTime.isSome &&
      data.latitude.isSome && data.longitude.isSome &&
      !(decide ((data.id.getD now) ∈ storeIds s))
  | .update _ idArg data =>
      data.logDate.isSome && data.positionTime.isSome &&
      data.latitude.isSome && data.longitude.isSome &&
      (data.id = none || data.id = some idArg)
  | _ => true

/-- A whole operation sequence is well-formed when every operation is
well-formed in the state it encounters. -/
def goodRun (s : DMState) : List Op → Bool
  | [] => true
  | op :: ops => opOK s op && goodRun (step s op) ops

/-- States a data manager can be in after any well-formed sequence of
operations on a fresh instance. -/
def Reachable (s : DMState) : Prop :=
  ∃ ops : List Op, goodRun initState ops = true ∧ run initState ops = s

/-- The records of a list whose `chronoKey` equals `k`, in order — the
observation used to state sort stability. -/
def keyFilter (k : List Char × List Char) (l : List Rec) : List Rec :=
  l.filter (fun x => decide (chronoKey x = k))

/-- All ids reachable by unioning every by-date index bucket. -/
def dateIndexIds (s : DMState) : List Int :=
  (s.logsByDate.flatMap (fun p => p.2)).map (fun r => r.id)

/-- The ids of the store records that carry a date. -/
def storeIdsWithDate (s : DMState) : List Int :=
  (s.navigationLogs.filter (fun r => r.logDate.isSome)).map (fun r => r.id)

/-- The consistency invariant maintained by every well-formed mutation:
the store records carry the four always-supplied fields; ids are unique;
the index maps are duplicate-key free; each by-date bucket holds, up to
order, exactly the store records with that date; each grid cell holds,
up to order, exactly the store records mapping to that cell; the spatial
envelope contains the coordinates of every parseable record; a clean
chronological index equals the sort of the store; and a live
`chronological_all` cache entry exists only when clean, holding that same
sort. -/
structure Inv (s : DMState) : Prop where
  fieldsOK : ∀ r ∈ s.navigationLogs,
      r.logDate.isSome ∧ r.positionTime.isSome ∧ r.latitude.isSome ∧ r.longitude.isSome
  idsNodup : (s.navigationLogs.map (fun r => r.id)).Nodup
  dateKeysNodup : (s.logsByDate.map Prod.fst).Nodup
  gridKeysNodup : (s.spatialGrid.map Prod.fst).Nodup
  datePerKey : ∀ k, (bucketAt s.logsByDate k).Perm
      (s.navigationLogs.filter (fun r => decide (r.logDate = k)))
  gridPerKey : ∀ c, (bucketAt s.spatialGrid c).Perm
      (s.navigationLogs.filter (fun r => decide (gridCellOf r = some c)))
  boundsOK : ∀ r ∈ s.navigationLogs, ∀ q : ℚ × ℚ, dmCoords r = some q →
      s.spatialBounds.minLat ≤ q.1 ∧ q.1 ≤ s.spatialBounds.maxLat ∧
      s.spatialBounds.minLon ≤ q.2 ∧ q.2 ≤ s.spatialBounds.maxLon
  chronoIdx : s.chronologicalDirty = false →
      s.chronologicalIndex = chronoSort s.navigationLogs
  chronoCache : ∀ v ts, jGet s.cache "chronological_all" = some (v, ts) →
      s.chronologicalDirty = false ∧ v = chronoSort s.navigationLogs

/-! ### Concrete sample inputs for the concrete evaluations below.

The strings `latA`/`lonA`/`latB`/`lonB`/`latZ`/`lonZ` carry the mojibake
degree sign `Â°` that the data manager regex expects, so the data
manager parses them; `latC`/`lonC` carry the clean degree sign `°`, which
the data manager regex never matches (while `CoordinateUtils` does). -/

def latA : String := "20Â°56.1'N"

def lonA : String := "158Â°03.0'W"

def latB : String := "21Â°00.0'N"

def lonB : String := "158Â°00.0'W"

def latC : String := "20°56.1'N"

def lonC : String := "158°03.0'W"

def latZ : String := "0Â°0.0'N"

def lonZ : String := "0Â°0.0'E"

/-- Coordinate strings exercising `CoordinateUtils.parseCoordinate`. -/
def latCu : String := "20°56.1'N"

def lonCu : String := "158°03.0'W"

def bad61 : String := "20°61.0'N"

def lat91 : String := "91°00.0'N"

def garbled : String := "20°56.1'NX"

def dataA : LogData :=
  { id := some 2
    logDate := some "2024-01-01"
    positionTime := some "12:00"
    latitude := some latA
    longitude := some lonA }

def dataB : LogData :=
  { id := some 1
    logDate := some "2024-01-01"
    positionTime := some "12:00"
    latitude := some latB
    longitude := some lonB }

def dataC : LogData :=
  { id := some 7
    logDate := some "2024-01-03"
    positionTime := some "08:00"
    latitude := some latC
    longitude := some lonC }

/-- `dataC` with a different latitude: a spatial-field change. -/
def dataC2 : LogData := { dataC with latitude := some "10°00.0'N" }

/-- The partial-update object of the usage example in `docs/API.md`:
`app.updateNavigationLog(123, { remarks: ... })`. -/
def dataP : LogData := { remarks := some "Updated remarks" }

/-- An add payload that supplies no id. -/
def dataE : LogData :=
  { id := none
    logDate := some "2024-01-05"
    positionTime := some "09:00"
    latitude := some latC
    longitude := some lonC }

def dataZ1 : LogData :=
  { id := some 11
    logDate := some "2024-02-01"
    positionTime := some "06:00"
    latitude := some latZ
    longitude := some lonZ }

def dataZ2 : LogData :=
  { id := some 12
    logDate := some "2024-02-01"
    positionTime := some "06:30"
    latitude := some latZ
    longitude := some lonZ }

def recZ1 : Rec :=
  { id := 11
    entryTimestamp := some 100
    logDate := some "2024-02-01"
    positionTime := some "06:00"
    latitude := some latZ
    longitude := some lonZ }

def recZ2 : Rec :=
  { id := 12
    entryTimestamp := some 300
    logDate := some "2024-02-01"
    positionTime := some "06:30"
    latitude := some latZ
    longitude := some lonZ }

def ne0 : ℚ × ℚ := (0, 0)

def sw0 : ℚ × ℚ := (0, 0)

def bkeyZ : String := boundsKey ne0 sw0

def stateAB : DMState := run initState [Op.add 100 dataA, Op.add 200 dataB]

def stateC : DMState := run initState [Op.add 100 dataC]

/-- `stateC` after a bounding-box query that caches its payload. -/
def stateCq : DMState :=
  run initState
    [Op.add 100 dataC, Op.qBounds 200 ((90 : ℚ), (180 : ℚ)) ((-90 : ℚ), (-180 : ℚ))]

/-- `stateCq` after an update that changes the latitude (a spatial field). -/
def stateCq2 : DMState := step stateCq (Op.update 300 7 dataC2)

def opsC6 : List Op :=
  [Op.add 100 dataZ1, Op.qBounds 200 ne0 sw0, Op.add 300 dataZ2]

def stateC6 : DMState := run initState opsC6

/-- The state after `Op.add 100 dataZ1`, written out. -/
def S1z : DMState :=
  { navigationLogs := [recZ1]
    logsById := [(11, recZ1)]
    logsByDate := [(some "2024-02-01", [recZ1])]
    chronologicalIndex := []
    chronologicalDirty := true
    spatialGrid := [((0, 0), [recZ1])]
    spatialBounds := { minLat := 0, maxLat := 0, minLon := 0, maxLon := 0 }
    cache := [] }

/-- `S1z` after `Op.qBounds 200 ne0 sw0` cached its payload. -/
def S2z : DMState := { S1z with cache := [(bkeyZ, ([recZ1], 200))] }

/-- `S2z` after `Op.add 300 dataZ2`: the grid and store grow, the
`bounds_` cache entry survives. -/
def S3z : DMState :=
  { navigationLogs := [recZ1, recZ2]
    logsById := [(11, recZ1), (12, recZ2)]
    logsByDate := [(some "2024-02-01", [recZ1, recZ2])]
    chronologicalIndex := []
    chronologicalDirty := true
    spatialGrid := [((0, 0), [recZ1, recZ2])]
    spatialBounds := { minLat := 0, maxLat := 0, minLon := 0, maxLon := 0 }
    cache := [(bkeyZ, ([recZ1], 200))] }

/-! ### Association-list map lemmas -/

theorem jGet_jSet_self {κ α : Type} [DecidableEq κ] (m : List (κ × α)) (k : κ) (v : α) :
    jGet (jSet m k v) k = some v := by
  induction m with
  | nil => simp [jSet, jGet]
  | cons p t ih =>
      obtain ⟨k', v'⟩ := p
      by_cases h : k' = k
      · simp [jSet, h, jGet]
      · simp [jSet, h, jGet, ih]

theorem jGet_jSet_other {κ α : Type} [DecidableEq κ] (m : List (κ × α)) (k k' : κ) (v : α)
    (h : k' ≠ k) : jGet (jSet m k v) k' = jGet m k' := by
  have hkk : k ≠ k' := Ne.symm h
  induction m with
  | nil => simp [jSet, jGet, hkk]
  | cons p t ih =>
      obtain ⟨k₀, v₀⟩ := p
      by_cases h0 : k₀ = k
      · subst h0
        simp [jSet, jGet, hkk]
      · simp [jSet, h0, jGet, ih]

theorem jGet_filter_key {κ α : Type} [DecidableEq κ] (m : List (κ × α)) (Q : κ → Bool)
    (k : κ) : jGet (m.filter (fun p => Q p.1)) k = if Q k then jGet m k else none := by
  induction m with
  | nil => simp [jGet]
  | cons p t ih =>
      obtain ⟨k₀, v₀⟩ := p
      by_cases hq : Q k₀
      · rw [List.filter_cons_of_pos (by simpa using hq)]
        by_cases h0 : k₀ = k
        · subst h0
          simp [jGet, hq]
        · simp [jGet, h0, ih]
      · rw [List.filter_cons_of_neg (by simpa using hq)]
        by_cases h0 : k₀ = k
        · subst h0
          simp [jGet, hq, ih]
        · simp [jGet, h0, ih]

theorem jGet_jDelete {κ α : Type} [DecidableEq κ] (m : List (κ × α)) (k k' : κ) :
    jGet (jDelete m k) k' = if k' = k then none else jGet m k' := by
  have h := jGet_filter_key m (fun a => !(decide (a = k))) k'
  by_cases h0 : k' = k <;> simpa [jDelete, h0] using h

theorem jGet_jDelete_self {κ α : Type} [DecidableEq κ] (m : List (κ × α)) (k : κ) :
    jGet (jDelete m k) k = none := by
  simp [jGet_jDelete]

theorem jGet_jDelete_other {κ α : Type} [DecidableEq κ] (m : List (κ × α)) (k k' : κ)
    (h : k' ≠ k) : jGet (jDelete m k) k' = jGet m k' := by
  simp [jGet_jDelete, h]

theorem mem_of_jGet_eq_some {κ α : Type} [DecidableEq κ] {m : List (κ × α)} {k : κ} {v : α}
    (h : jGet m k = some v) : (k, v) ∈ m := by
  induction m with
  | nil => simp [jGet] at h
  | cons p t ih =>
      obtain ⟨k₀, v₀⟩ := p
      by_cases h0 : k₀ = k
      · subst h0
        simp only [jGet, if_pos rfl] at h
        injection h with h
        subst h
        exact List.mem_cons_self _ _
      · simp only [jGet, if_neg h0] at h
        exact List.mem_cons_of_mem _ (ih h)

theorem jGet_eq_some_of_mem_nodup {κ α : Type} [DecidableEq κ] {m : List (κ × α)} {k : κ}
    {v : α} (hn : (m.map Prod.fst).Nodup) (h : (k, v) ∈ m) : jGet m k = some v := by
  induction m with
  | nil => simp at h
  | cons p t ih =>
      obtain ⟨k₀, v₀⟩ := p
      rw [List.map_cons, List.nodup_cons] at hn
      rcases List.mem_cons.mp h with h1 | h1
      · injection h1 with h1a h1b
        subst h1a
        subst h1b
        simp [jGet]
      · have hk : k₀ ≠ k := by
          intro hh
          subst hh
          exact hn.1 (List.mem_map.mpr ⟨(k₀, v), h1, rfl⟩)
        simp only [jGet, if_neg hk]
        exact ih hn.2 h1

theorem mem_jSet {κ α : Type} [DecidableEq κ] {m : List (κ × α)} {k : κ} {v : α} {p : κ × α}
    (h : p ∈ jSet m k v) : p = (k, v) ∨ p ∈ m := by
  induction m with
  | nil => simpa [jSet] using h
  | cons q t ih =>
      obtain ⟨k₀, v₀⟩ := q
      by_cases h0 : k₀ = k
      · simp [jSet, h0] at h
        rcases h with h1 | h1
        · exact Or.inl (by simp [h1])
        · exact Or.inr (List.mem_cons_of_mem _ h1)
      · simp [jSet, h0] at h
        rcases h with h1 | h1
        · exact Or.inr (by simp [h1])
        · rcases ih h1 with h2 | h2
          · exact Or.inl h2
          · exact Or.inr (List.mem_cons_of_mem _ h2)

theorem keys_nodup_jSet {κ α : Type} [DecidableEq κ] {m : List (κ × α)} (k : κ) (v : α)
    (hn : (m.map Prod.fst).Nodup) : ((jSet m k v).map Prod.fst).Nodup := by
  induction m with
  | nil => simp [jSet]
  | cons q t ih =>
      obtain ⟨k₀, v₀⟩ := q
      rw [List.map_cons, List.nodup_cons] at hn
      by_cases h0 : k₀ = k
      · subst h0
        have hrw : jSet ((k₀, v₀) :: t) k₀ v = (k₀, v) :: t := by simp [jSet]
        rw [hrw, List.map_cons, List.nodup_cons]
        exact hn
      · have hrw : jSet ((k₀, v₀) :: t) k v = (k₀, v₀) :: jSet t k v := by simp [jSet, h0]
        rw [hrw, List.map_cons, List.nodup_cons]
        refine ⟨?_, ih hn.2⟩
        intro hmem
        rcases List.mem_map.mp hmem with ⟨q, hq, hq2⟩
        rcases mem_jSet hq with h2 | h2
        · rw [h2] at hq2
          exact h0 hq2.symm
        · exact hn.1 (List.mem_map.mpr ⟨q, h2, hq2⟩)

theorem keys_nodup_jDelete {κ α : Type} [DecidableEq κ] {m : List (κ × α)} (k : κ)
    (hn : (m.map Prod.fst).Nodup) : ((jDelete m k).map Prod.fst).Nodup := by
  have hsub : (jDelete m k).Sublist m := List.filter_sublist m
  exact (hsub.map Prod.fst).nodup hn

/-! ### Removal and replacement inversions -/

theorem removeFirstById_eq_none {l : List Rec} {i : Int} :
    removeFirstById l i = none ↔ ∀ r ∈ l, r.id ≠ i := by
  induction l with
  | nil => simp [removeFirstById]
  | cons r t ih =>
      by_cases h : r.id = i
      · simp [removeFirstById, h]
      · simp [removeFirstById, h, ih]

theorem removeFirstById_eq_some {l : List Rec} {i : Int} {e : Rec} {l' : List Rec}
    (h : removeFirstById l i = some (e, l')) :
    e.id = i ∧ ∃ pre post, l = pre ++ e :: post ∧ l' = pre ++ post ∧
      ∀ x ∈ pre, x.id ≠ i := by
  induction l generalizing l' with
  | nil => simp [removeFirstById] at h
  | cons r t ih =>
      by_cases hr : r.id = i
      · rw [removeFirstById, if_pos hr] at h
        injection h with h
        injection h with h1 h2
        subst h1
        subst h2
        exact ⟨hr, [], t, rfl, rfl, by simp⟩
      · rw [removeFirstById, if_neg hr] at h
        cases ht : removeFirstById t i with
        | none => rw [ht] at h; simp at h
        | some p =>
            obtain ⟨e₀, t'⟩ := p
            rw [ht] at h
            simp only [Option.map] at h
            injection h with h
            injection h with h1 h2
            subst h1
            obtain ⟨hid, pre, post, hl, hl', hpre⟩ := ih ht
            subst h2
            refine ⟨hid, r :: pre, post, by simp [hl], by simp [hl'], ?_⟩
            intro x hx
            rcases List.mem_cons.mp hx with hx | hx
            · subst hx; exact hr
            · exact hpre x hx

theorem replaceFirstById_eq_none {now i : Int} {data : LogData} {l : List Rec} :
    replaceFirstById now i data l = none ↔ ∀ r ∈ l, r.id ≠ i := by
  induction l with
  | nil => simp [replaceFirstById]
  | cons r t ih =>
      by_cases h : r.id = i
      · simp [replaceFirstById, h]
      · simp [replaceFirstById, h, ih]

theorem replaceFirstById_eq_some {now i : Int} {data : LogData} {l : List Rec}
    {o u : Rec} {l' : List Rec}
    (h : replaceFirstById now i data l = some (o, u, l')) :
    o.id = i ∧ u = mkUpdatedLog o now i data ∧ ∃ pre post, l = pre ++ o :: post ∧
      l' = pre ++ u :: post ∧ ∀ x ∈ pre, x.id ≠ i := by
  induction l generalizing l' with
  | nil => simp [replaceFirstById] at h
  | cons r t ih =>
      by_cases hr : r.id = i
      · rw [replaceFirstById, if_pos hr] at h
        injection h with h
        injection h with h1 h2
        subst h1
        injection h2 with h2a h2b
        subst h2a
        subst h2b
        exact ⟨hr, rfl, [], t, rfl, rfl, by simp⟩
      · rw [replaceFirstById, if_neg hr] at h
        cases ht : replaceFirstById now i data t with
        | none => rw [ht] at h; simp at h
        | some p =>
            obtain ⟨o₀, u₀, t'⟩ := p
            rw [ht] at h
            simp only [Option.map] at h
            injection h with h
            injection h with h1 h2
            subst h1
            injection h2 with h2a h2b
            subst h2a
            obtain ⟨hid, hu, pre, post, hl, hl', hpre⟩ := ih ht
            subst h2b
            refine ⟨hid, hu, r :: pre, post, by simp [hl], by simp [hl'], ?_⟩
            intro x hx
            rcases List.mem_cons.mp hx with hx | hx
            · subst hx; exact hr
            · exact hpre x hx

/-- Records of a duplicate-id-free list are determined by their id. -/
theorem eq_of_mem_of_id_eq {l : List Rec} (hn : (l.map (fun r => r.id)).Nodup)
    {a b : Rec} (ha : a ∈ l) (hb : b ∈ l) (hid : a.id = b.id) : a = b :=
  List.inj_on_of_nodup_map hn ha hb hid

/-! ### Bucket lemmas -/

theorem bucketAt_bucketAppend_self {κ : Type} [DecidableEq κ]
    (m : List (κ × List Rec)) (k : κ) (log : Rec) :
    bucketAt (bucketAppend m k log) k = bucketAt m k ++ [log] := by
  simp [bucketAt, bucketAppend, jGet_jSet_self]

theorem bucketAt_bucketAppend_other {κ : Type} [DecidableEq κ]
    (m : List (κ × List Rec)) (k k' : κ) (log : Rec) (h : k' ≠ k) :
    bucketAt (bucketAppend m k log) k' = bucketAt m k' := by
  simp [bucketAt, bucketAppend, jGet_jSet_other _ _ _ _ h]

theorem bucketAt_bucketRemove_self {κ : Type} [DecidableEq κ]
    (m : List (κ × List Rec)) (k : κ) (i : Int) :
    bucketAt (bucketRemove m k i) k =
      match removeFirstById (bucketAt m k) i with
      | some p => p.2
      | none => bucketAt m k := by
  cases hg : jGet m k with
  | none => simp [bucketAt, bucketRemove, hg, removeFirstById]
  | some logs =>
      cases hr : removeFirstById logs i with
      | none => simp [bucketAt, bucketRemove, hg, hr]
      | some p =>
          by_cases hemp : p.2.isEmpty
          · have hnil : p.2 = [] := by simpa using hemp
            simp [bucketAt, bucketRemove, hg, hr, hnil, jGet_jDelete_self]
          · have hnil : ¬ p.2 = [] := by simpa using hemp
            simp [bucketAt, bucketRemove, hg, hr, hnil, jGet_jSet_self]

theorem bucketAt_bucketRemove_other {κ : Type} [DecidableEq κ]
    (m : List (κ × List Rec)) (k k' : κ) (i : Int) (h : k' ≠ k) :
    bucketAt (bucketRemove m k i) k' = bucketAt m k' := by
  cases hg : jGet m k with
  | none => simp [bucketRemove, hg]
  | some logs =>
      cases hr : removeFirstById logs i with
      | none => simp [bucketRemove, hg, hr]
      | some p =>
          by_cases hemp : p.2.isEmpty
          · have hnil : p.2 = [] := by simpa using hemp
            simp [bucketAt, bucketRemove, hg, hr, hnil, jGet_jDelete_other _ _ _ h]
          · have hnil : ¬ p.2 = [] := by simpa using hemp
            simp [bucketAt, bucketRemove, hg, hr, hnil, jGet_jSet_other _ _ _ _ h]

theorem keys_nodup_bucketAppend {κ : Type} [DecidableEq κ]
    {m : List (κ × List Rec)} (k : κ) (log : Rec)
    (hn : (m.map Prod.fst).Nodup) : ((bucketAppend m k log).map Prod.fst).Nodup :=
  keys_nodup_jSet _ _ hn

theorem keys_nodup_bucketRemove {κ : Type} [DecidableEq κ]
    {m : List (κ × List Rec)} (k : κ) (i : Int)
    (hn : (m.map Prod.fst).Nodup) : ((bucketRemove m k i).map Prod.fst).Nodup := by
  cases hg : jGet m k with
  | none => simpa [bucketRemove, hg] using hn
  | some logs =>
      cases hr : removeFirstById logs i with
      | none => simpa [bucketRemove, hg, hr] using hn
      | some p =>
          by_cases hemp : p.2.isEmpty
          · have hnil : p.2 = [] := by simpa using hemp
            simpa [bucketRemove, hg, hr, hnil] using keys_nodup_jDelete k hn
          · have hnil : ¬ p.2 = [] := by simpa using hemp
            simpa [bucketRemove, hg, hr, hnil] using keys_nodup_jSet k p.2 hn

/-! ### String order lemmas -/

theorem strLtB_irrefl (a : List Char) : strLtB a a = false := by
  induction a with
  | nil => rfl
  | cons c t ih => simp [strLtB, lt_irrefl, ih]

theorem strLtB_asymm {a b : List Char} (h : strLtB a b = true) : strLtB b a = false := by
  induction a generalizing b with
  | nil =>
      cases b with
      | nil => simp [strLtB] at h
      | cons d u => simp [strLtB]
  | cons c t ih =>
      cases b with
      | nil => simp [strLtB] at h
      | cons d u =>
          by_cases hcd : c < d
          · simp [strLtB, lt_asymm hcd, hcd]
          · by_cases hdc : d < c
            · simp [strLtB, hcd, hdc] at h
            · have hcdeq : c = d := le_antisymm (not_lt.mp hdc) (not_lt.mp hcd)
              subst hcdeq
              simp only [strLtB, lt_irrefl, if_false] at h ⊢
              exact ih h

theorem strLtB_trans {a b c : List Char} (hab : strLtB a b = true)
    (hbc : strLtB b c = true) : strLtB a c = true := by
  induction a generalizing b c with
  | nil =>
      cases c with
      | nil =>
          cases b with
          | nil => simpa using hbc
          | cons d u => simp [strLtB] at hbc
      | cons e v => simp [strLtB]
  | cons x xs ih =>
      cases b with
      | nil => simp [strLtB] at hab
      | cons y ys =>
          cases c with
          | nil => simp [strLtB] at hbc
          | cons z zs =>
              by_cases hxy : x < y
              · by_cases hyz : y < z
                · simp [strLtB, lt_trans hxy hyz]
                · by_cases hzy : z < y
                  · simp [strLtB, hyz, hzy] at hbc
                  · have hyzeq : y = z := le_antisymm (not_lt.mp hzy) (not_lt.mp hyz)
                    subst hyzeq
                    simp [strLtB, hxy]
              · by_cases hyx : y < x
                · simp [strLtB, hxy, hyx] at hab
                · have hxyeq : x = y := le_antisymm (not_lt.mp hyx) (not_lt.mp hxy)
                  subst hxyeq
                  simp only [strLtB, lt_irrefl, if_false] at hab
                  by_cases hxz : x < z
                  · simp [strLtB, hxz]
                  · by_cases hzx : z < x
                    · simp [strLtB, hxz, hzx] at hbc
                    · have hxzeq : x = z := le_antisymm (not_lt.mp hzx) (not_lt.mp hxz)
                      subst hxzeq
                      simp only [strLtB, lt_irrefl, if_false] at hbc ⊢
                      exact ih hab hbc

theorem strLtB_eq_of_not {a b : List Char} (h1 : strLtB a b = false)
    (h2 : strLtB b a = false) : a = b := by
  induction a generalizing b with
  | nil =>
      cases b with
      | nil => rfl
      | cons d u => simp [strLtB] at h1
  | cons c t ih =>
      cases b with
      | nil => simp [strLtB] at h2
      | cons d u =>
          by_cases hcd : c < d
          · simp [strLtB, hcd] at h1
          · by_cases hdc : d < c
            · simp [strLtB, hdc] at h2
            · have : c = d := le_antisymm (not_lt.mp hdc) (not_lt.mp hcd)
              subst this
              simp only [strLtB, lt_irrefl, if_false] at h1 h2
              rw [ih h1 h2]

theorem strLtB_false_trans {a b c : List Char} (h1 : strLtB b a = false)
    (h2 : strLtB c b = false) : strLtB c a = false := by
  by_cases h : strLtB c a = true
  · by_cases hab : strLtB a b = true
    · have := strLtB_trans h hab
      rw [this] at h2
      exact absurd h2 (by simp)
    · have hba : a = b :=
        strLtB_eq_of_not (Bool.not_eq_true _ ▸ hab) h1
      subst hba
      rw [h] at h2
      exact absurd h2 (by simp)
  · exact Bool.not_eq_true _ ▸ h

/-! ### Chronological comparator lemmas -/

theorem chronoLe_iff {a b : Rec} : chronoLe a b = true ↔
    (strLtB (chronoKey a).1 (chronoKey b).1 = true ∨
      ((chronoKey a).1 = (chronoKey b).1 ∧
        strLtB (chronoKey b).2 (chronoKey a).2 = false)) := by
  unfold chronoLe
  by_cases h1 : strLtB (chronoKey a).1 (chronoKey b).1 = true
  · simp [h1]
  · have h1f : strLtB (chronoKey a).1 (chronoKey b).1 = false := by
      simpa using h1
    by_cases h2 : strLtB (chronoKey b).1 (chronoKey a).1 = true
    · simp only [h1f, h2, if_false, if_true, Bool.false_eq_true, false_iff]
      rintro (h | ⟨heq, _⟩)
      · simp at h
      · rw [heq] at h2
        rw [strLtB_irrefl] at h2
        exact absurd h2 (by simp)
    · have h2f : strLtB (chronoKey b).1 (chronoKey a).1 = false := by
        simpa using h2
      have heq : (chronoKey a).1 = (chronoKey b).1 := strLtB_eq_of_not h1f h2f
      simp [h1f, h2f, strLeB, heq, strLtB_irrefl]

theorem chronoLe_total (a b : Rec) : chronoLe a b = true ∨ chronoLe b a = true := by
  by_cases h1 : strLtB (chronoKey a).1 (chronoKey b).1 = true
  · exact Or.inl (chronoLe_iff.mpr (Or.inl h1))
  · by_cases h2 : strLtB (chronoKey b).1 (chronoKey a).1 = true
    · exact Or.inr (chronoLe_iff.mpr (Or.inl h2))
    · have heq : (chronoKey a).1 = (chronoKey b).1 :=
        strLtB_eq_of_not (by simpa using h1) (by simpa using h2)
      by_cases h3 : strLtB (chronoKey b).2 (chronoKey a).2 = true
      · exact Or.inr (chronoLe_iff.mpr (Or.inr ⟨heq.symm, strLtB_asymm h3⟩))
      · exact Or.inl (chronoLe_iff.mpr (Or.inr ⟨heq, by simpa using h3⟩))

theorem chronoLe_trans {a b c : Rec} (hab : chronoLe a b = true)
    (hbc : chronoLe b c = true) : chronoLe a c = true := by
  rcases chronoLe_iff.mp hab with h1 | ⟨h1, h1t⟩ <;>
    rcases chronoLe_iff.mp hbc with h2 | ⟨h2, h2t⟩
  · exact chronoLe_iff.mpr (Or.inl (strLtB_trans h1 h2))
  · exact chronoLe_iff.mpr (Or.inl (h2 ▸ h1))
  · exact chronoLe_iff.mpr (Or.inl (h1 ▸ h2))
  · exact chronoLe_iff.mpr (Or.inr ⟨h1.trans h2, strLtB_false_trans h1t h2t⟩)

theorem chronoLe_of_key_eq {a b : Rec} (h : chronoKey a = chronoKey b) :
    chronoLe a b = true := by
  refine chronoLe_iff.mpr (Or.inr ⟨by rw [h], ?_⟩)
  rw [h, strLtB_irrefl]

/-! ### Stable sort lemmas -/

theorem insertChrono_perm (r : Rec) (l : List Rec) :
    (insertChrono r l).Perm (r :: l) := by
  induction l with
  | nil => simp [insertChrono]
  | cons x t ih =>
      by_cases h : chronoLe r x = true
      · rw [insertChrono, if_pos h]
      · rw [insertChrono, if_neg h]
        exact (ih.cons x).trans (List.Perm.swap r x t)

theorem chronoSort_perm (l : List Rec) : (chronoSort l).Perm l := by
  induction l with
  | nil => simp [chronoSort]
  | cons r t ih =>
      rw [chronoSort]
      exact (insertChrono_perm r (chronoSort t)).trans (ih.cons r)

theorem insertChrono_pairwise {r : Rec} {l : List Rec}
    (h : l.Pairwise (fun a b => chronoLe a b = true)) :
    (insertChrono r l).Pairwise (fun a b => chronoLe a b = true) := by
  induction l with
  | nil => simp [insertChrono]
  | cons x t ih =>
      rcases List.pairwise_cons.mp h with ⟨hx, ht⟩
      by_cases hrx : chronoLe r x = true
      · rw [insertChrono, if_pos hrx]
        refine List.pairwise_cons.mpr ⟨?_, h⟩
        intro y hy
        rcases List.mem_cons.mp hy with rfl | hy
        · exact hrx
        · exact chronoLe_trans hrx (hx y hy)
      · rw [insertChrono, if_neg hrx]
        refine List.pairwise_cons.mpr ⟨?_, ih ht⟩
        intro y hy
        have hy2 : y ∈ r :: t := (insertChrono_perm r t).subset hy
        rcases List.mem_cons.mp hy2 with heq | hy2
        · rw [heq]
          rcases chronoLe_total r x with h1 | h1
          · exact absurd h1 hrx
          · exact h1
        · exact hx y hy2

theorem chronoSort_pairwise (l : List Rec) :
    (chronoSort l).Pairwise (fun a b => chronoLe a b = true) := by
  induction l with
  | nil => simp [chronoSort]
  | cons r t ih =>
      rw [chronoSort]
      exact insertChrono_pairwise ih

theorem keyFilter_insertChrono (k : List Char × List Char) (r : Rec) (l : List Rec) :
    keyFilter k (insertChrono r l) = keyFilter k (r :: l) := by
  induction l with
  | nil => rfl
  | cons x t ih =>
      by_cases hrx : chronoLe r x = true
      · rw [insertChrono, if_pos hrx]
      · rw [insertChrono, if_neg hrx]
        simp only [keyFilter, List.filter_cons, decide_eq_true_eq] at ih ⊢
        rw [ih]
        by_cases hxk : chronoKey x = k
        · have hrk : ¬ chronoKey r = k := fun hrk =>
            hrx (chronoLe_of_key_eq (hrk.trans hxk.symm))
          simp [hxk, hrk]
        · simp [hxk]

theorem keyFilter_chronoSort (k : List Char × List Char) (l : List Rec) :
    keyFilter k (chronoSort l) = keyFilter k l := by
  induction l with
  | nil => rfl
  | cons r t ih =>
      rw [chronoSort, keyFilter_insertChrono]
      simp only [keyFilter, List.filter_cons] at ih ⊢
      rw [ih]

/-! ### Per-field effect lemmas -/

theorem invalidateCaches_navLogs (s : DMState) (cats : List String) :
    (invalidateCaches s cats).navigationLogs = s.navigationLogs := by
  unfold invalidateCaches
  split <;> rfl

theorem invalidateCaches_logsByDate (s : DMState) (cats : List String) :
    (invalidateCaches s cats).logsByDate = s.logsByDate := by
  unfold invalidateCaches
  split <;> rfl

theorem invalidateCaches_spatialGrid (s : DMState) (cats : List String) :
    (invalidateCaches s cats).spatialGrid = s.spatialGrid := by
  unfold invalidateCaches
  split <;> rfl

theorem invalidateCaches_spatialBounds (s : DMState) (cats : List String) :
    (invalidateCaches s cats).spatialBounds = s.spatialBounds := by
  unfold invalidateCaches
  split <;> rfl

theorem invalidateCaches_dirty (s : DMState) (cats : List String) :
    (invalidateCaches s cats).chronologicalDirty = s.chronologicalDirty := by
  unfold invalidateCaches
  split <;> rfl

theorem invalidateCaches_chronoIdx (s : DMState) (cats : List String) :
    (invalidateCaches s cats).chronologicalIndex = s.chronologicalIndex := by
  unfold invalidateCaches
  split <;> rfl

theorem invalidateCaches_mutation_cache (s : DMState) :
    (invalidateCaches s ["chronological", "dateRange"]).cache =
      mutationInvalidate s.cache := by
  have hall : (["chronological", "dateRange"].contains "all") = false := by decide
  unfold invalidateCaches
  rw [if_neg (by simp [hall])]
  unfold mutationInvalidate
  simp

theorem getCached_snd_cache (s : DMState) (now : Int) (key : String) :
    (getCached s now key).2.cache = s.cache ∨
      (getCached s now key).2.cache = jDelete s.cache key := by
  unfold getCached
  cases jGet s.cache key with
  | none => exact Or.inr rfl
  | some v =>
      dsimp only
      split
      · exact Or.inr rfl
      · exact Or.inl rfl

theorem getCached_snd_others (s : DMState) (now : Int) (key : String) :
    (getCached s now key).2.navigationLogs = s.navigationLogs ∧
    (getCached s now key).2.logsByDate = s.logsByDate ∧
    (getCached s now key).2.spatialGrid = s.spatialGrid ∧
    (getCached s now key).2.spatialBounds = s.spatialBounds ∧
    (getCached s now key).2.chronologicalDirty = s.chronologicalDirty ∧
    (getCached s now key).2.chronologicalIndex = s.chronologicalIndex := by
  unfold getCached
  cases jGet s.cache key with
  | none => exact ⟨rfl, rfl, rfl, rfl, rfl, rfl⟩
  | some v =>
      dsimp only
      split <;> exact ⟨rfl, rfl, rfl, rfl, rfl, rfl⟩

theorem evictOldestCache_others (s : DMState) (now : Int) :
    (evictOldestCache s now).navigationLogs = s.navigationLogs ∧
    (evictOldestCache s now).logsByDate = s.logsByDate ∧
    (evictOldestCache s now).spatialGrid = s.spatialGrid ∧
    (evictOldestCache s now).spatialBounds = s.spatialBounds ∧
    (evictOldestCache s now).chronologicalDirty = s.chronologicalDirty ∧
    (evictOldestCache s now).chronologicalIndex = s.chronologicalIndex := by
  unfold evictOldestCache
  cases oldestCacheKey s.cache now <;> exact ⟨rfl, rfl, rfl, rfl, rfl, rfl⟩

theorem evictOldestCache_cache (s : DMState) (now : Int) :
    (evictOldestCache s now).cache = s.cache ∨
      ∃ k, (evictOldestCache s now).cache = jDelete s.cache k := by
  unfold evictOldestCache
  cases oldestCacheKey s.cache now
  · exact Or.inl rfl
  · exact Or.inr ⟨_, rfl⟩

theorem setCached_others (s : DMState) (now : Int) (key : String) (v : List Rec) :
    (setCached s now key v).navigationLogs = s.navigationLogs ∧
    (setCached s now key v).logsByDate = s.logsByDate ∧
    (setCached s now key v).spatialGrid = s.spatialGrid ∧
    (setCached s now key v).spatialBounds = s.spatialBounds ∧
    (setCached s now key v).chronologicalDirty = s.chronologicalDirty ∧
    (setCached s now key v).chronologicalIndex = s.chronologicalIndex := by
  unfold setCached
  have h := evictOldestCache_others s now
  split
  · dsimp only
    exact ⟨h.1, h.2.1, h.2.2.1, h.2.2.2.1, h.2.2.2.2.1, h.2.2.2.2.2⟩
  · exact ⟨rfl, rfl, rfl, rfl, rfl, rfl⟩

theorem setCached_cache (s : DMState) (now : Int) (key : String) (v : List Rec) :
    (setCached s now key v).cache = jSet s.cache key (v, now) ∨
      ∃ k, (setCached s now key v).cache = jSet (jDelete s.cache k) key (v, now) := by
  unfold setCached
  split
  · dsimp only
    rcases evictOldestCache_cache s now with h | ⟨k, h⟩
    · exact Or.inl (by rw [h])
    · exact Or.inr ⟨k, by rw [h]⟩
  · exact Or.inl rfl

/-- Lookup of a freshly stored signature. -/
theorem jGet_setCached_self (s : DMState) (now : Int) (key : String) (v : List Rec) :
    jGet (setCached s now key v).cache key = some (v, now) := by
  rcases setCached_cache s now key v with h | ⟨k, h⟩ <;>
    rw [h, jGet_jSet_self]

/-- A chronological cache binding surviving `setCached` under a different
signature was already present before. -/
theorem jGet_setCached_other (s : DMState) (now : Int) (key key2 : String) (v : List Rec)
    (hne : key2 ≠ key) (w : List Rec × Int)
    (h : jGet (setCached s now key v).cache key2 = some w) :
    jGet s.cache key2 = some w := by
  rcases setCached_cache s now key v with hc | ⟨k, hc⟩
  · rwa [hc, jGet_jSet_other _ _ _ _ hne] at h
  · rw [hc, jGet_jSet_other _ _ _ _ hne, jGet_jDelete] at h
    split at h
    · exact absurd h (by simp)
    · exact h

/-- Same for the eager eviction performed by a `getCached` miss. -/
theorem jGet_getCached_some (s : DMState) (now : Int) (key key2 : String)
    (w : List Rec × Int) (h : jGet (getCached s now key).2.cache key2 = some w) :
    jGet s.cache key2 = some w := by
  rcases getCached_snd_cache s now key with hc | hc
  · rwa [hc] at h
  · rw [hc, jGet_jDelete] at h
    split at h
    · exact absurd h (by simp)
    · exact h

/-! ### Generic per-key bucket consistency -/

theorem perKey_append {κ : Type} [DecidableEq κ] {m : List (κ × List Rec)} {L : List Rec}
    {bel : Rec → κ → Bool}
    (hm : ∀ k, (bucketAt m k).Perm (L.filter (fun r => bel r k)))
    {n : Rec} {k₀ : κ} (hn : ∀ k, bel n k = true ↔ k = k₀) :
    ∀ k, (bucketAt (bucketAppend m k₀ n) k).Perm
      ((L ++ [n]).filter (fun r => bel r k)) := by
  intro k
  by_cases hk : k = k₀
  · subst hk
    rw [bucketAt_bucketAppend_self, List.filter_append]
    have hb : bel n k = true := (hn k).mpr rfl
    simp only [List.filter_cons, hb, if_true, List.filter_nil]
    exact (hm k).append_right [n]
  · rw [bucketAt_bucketAppend_other _ _ _ _ hk, List.filter_append]
    have hb : bel n k = false := by
      rcases hbool : bel n k with _ | _
      · rfl
      · exact absurd ((hn k).mp hbool) hk
    simp only [List.filter_cons, hb, List.filter_nil]
    simpa using hm k

theorem perKey_skip_append {κ : Type} [DecidableEq κ] {m : List (κ × List Rec)}
    {L : List Rec} {bel : Rec → κ → Bool}
    (hm : ∀ k, (bucketAt m k).Perm (L.filter (fun r => bel r k)))
    {n : Rec} (hn : ∀ k, bel n k = false) :
    ∀ k, (bucketAt m k).Perm ((L ++ [n]).filter (fun r => bel r k)) := by
  intro k
  rw [List.filter_append]
  simp only [List.filter_cons, hn k, List.filter_nil]
  simpa using hm k

theorem perKey_remove {κ : Type} [DecidableEq κ] {m : List (κ × List Rec)} {L : List Rec}
    {bel : Rec → κ → Bool}
    (hm : ∀ k, (bucketAt m k).Perm (L.filter (fun r => bel r k)))
    {e : Rec} {k₀ : κ} (he : ∀ k, bel e k = true ↔ k = k₀)
    (hidsU : ∀ x ∈ L, x.id = e.id → x = e) (heL : e ∈ L)
    {L' : List Rec} (hL' : (e :: L').Perm L) :
    ∀ k, (bucketAt (bucketRemove m k₀ e.id) k).Perm
      (L'.filter (fun r => bel r k)) := by
  intro k
  by_cases hk : k = k₀
  · subst hk
    rw [bucketAt_bucketRemove_self]
    have hbelek : bel e k = true := (he k).mpr rfl
    have hbe : e ∈ bucketAt m k :=
      (hm k).mem_iff.mpr (List.mem_filter.mpr ⟨heL, hbelek⟩)
    cases hrm : removeFirstById (bucketAt m k) e.id with
    | none => exact absurd rfl (removeFirstById_eq_none.mp hrm e hbe)
    | some p =>
        obtain ⟨hid, pre, post, hb, hb2, hpre⟩ := removeFirstById_eq_some hrm
        have hp1L : p.1 ∈ L := by
          have hmem : p.1 ∈ bucketAt m k := by
            rw [hb]
            exact List.mem_append.mpr (Or.inr (List.mem_cons_self _ _))
          exact (List.mem_filter.mp ((hm k).mem_iff.mp hmem)).1
        have hp1 : p.1 = e := hidsU p.1 hp1L hid
        have h1 : (e :: p.2).Perm (bucketAt m k) := by
          rw [hb, hb2, hp1]
          exact List.perm_middle.symm
        have h2 : (L.filter (fun r => bel r k)).Perm
            (e :: L'.filter (fun r => bel r k)) := by
          have h3 := (hL'.symm).filter (fun r => bel r k)
          simpa only [List.filter_cons, hbelek, if_true] using h3
        exact (h1.trans ((hm k).trans h2)).cons_inv
  · rw [bucketAt_bucketRemove_other _ _ _ _ hk]
    have hbel : bel e k = false := by
      rcases hbool : bel e k with _ | _
      · rfl
      · exact absurd ((he k).mp hbool) hk
    have h3 := hL'.filter (fun r => bel r k)
    simp only [List.filter_cons, hbel] at h3
    exact (hm k).trans h3.symm

theorem perKey_skip_remove {κ : Type} [DecidableEq κ] {m : List (κ × List Rec)}
    {L : List Rec} {bel : Rec → κ → Bool}
    (hm : ∀ k, (bucketAt m k).Perm (L.filter (fun r => bel r k)))
    {e : Rec} (he : ∀ k, bel e k = false)
    {L' : List Rec} (hL' : (e :: L').Perm L) :
    ∀ k, (bucketAt m k).Perm (L'.filter (fun r => bel r k)) := by
  intro k
  have h3 := hL'.filter (fun r => bel r k)
  simp only [List.filter_cons, he k] at h3
  exact (hm k).trans h3.symm

/-! ### String-prefix facts about cache signatures -/

theorem stringToList_append (a b : String) : (a ++ b).toList = a.toList ++ b.toList := by
  simp [String.toList, String.data_append]

theorem startsWithChars_append_of {l p : List Char} (r : List Char)
    (h : startsWithChars l p = true) : startsWithChars (l ++ r) p = true := by
  induction p generalizing l with
  | nil => simp [startsWithChars]
  | cons pc pt ih =>
      cases l with
      | nil => simp [startsWithChars] at h
      | cons c t =>
          simp only [startsWithChars, Bool.and_eq_true, decide_eq_true_eq] at h
          simp only [List.cons_append, startsWithChars, Bool.and_eq_true,
            decide_eq_true_eq]
          exact ⟨h.1, ih h.2⟩

theorem startsWithChars_head {l pt : List Char} {c : Char}
    (h : startsWithChars l (c :: pt) = true) : ∃ t, l = c :: t := by
  cases l with
  | nil => simp [startsWithChars] at h
  | cons d t =>
      simp only [startsWithChars, Bool.and_eq_true, decide_eq_true_eq] at h
      exact ⟨t, by rw [h.1]⟩

theorem jsStartsWith_head_ne {k p1 p2 : String} {c1 c2 : Char} {t1 t2 : List Char}
    (hp1 : p1.toList = c1 :: t1) (hp2 : p2.toList = c2 :: t2) (hne : c1 ≠ c2)
    (h : jsStartsWith k p1 = true) : jsStartsWith k p2 = false := by
  unfold jsStartsWith at h ⊢
  rw [hp1] at h
  rw [hp2]
  obtain ⟨t, ht⟩ := startsWithChars_head h
  rw [ht]
  simp [startsWithChars, hne]

theorem jsStartsWith_dateRange_key (a b : String) :
    jsStartsWith ("dateRange_" ++ a ++ "_" ++ b) "dateRange" = true := by
  unfold jsStartsWith
  rw [stringToList_append, stringToList_append, stringToList_append]
  apply startsWithChars_append_of
  apply startsWithChars_append_of
  apply startsWithChars_append_of
  decide

/-- A signature surviving `mutationInvalidate` was present before with
the same binding, and a signature matching either category is gone. -/
theorem jGet_mutationInvalidate (m : List (String × (List Rec × Int))) (k : String) :
    jGet (mutationInvalidate m) k =
      if jsStartsWith k "chronological" || jsStartsWith k "dateRange" then none
      else jGet m k := by
  have h := jGet_filter_key m
    (fun a => !(jsStartsWith a "chronological" || jsStartsWith a "dateRange")) k
  rcases hb : (jsStartsWith k "chronological" || jsStartsWith k "dateRange") with _ | _ <;>
    simpa [mutationInvalidate, hb] using h

/-! ### Spatial envelope lemmas -/

theorem updateSpatialBounds_le (b : SpatialBounds) (la lo : ℚ) :
    (updateSpatialBounds b la lo).minLat ≤ b.minLat ∧
    b.maxLat ≤ (updateSpatialBounds b la lo).maxLat ∧
    (updateSpatialBounds b la lo).minLon ≤ b.minLon ∧
    b.maxLon ≤ (updateSpatialBounds b la lo).maxLon := by
  unfold updateSpatialBounds
  refine ⟨?_, ?_, ?_, ?_⟩ <;> dsimp only <;> split <;>
    first
      | exact le_refl _
      | exact le_of_lt (by assumption)

theorem updateSpatialBounds_mem (b : SpatialBounds) (la lo : ℚ) :
    (updateSpatialBounds b la lo).minLat ≤ la ∧
    la ≤ (updateSpatialBounds b la lo).maxLat ∧
    (updateSpatialBounds b la lo).minLon ≤ lo ∧
    lo ≤ (updateSpatialBounds b la lo).maxLon := by
  unfold updateSpatialBounds
  refine ⟨?_, ?_, ?_, ?_⟩ <;> dsimp only <;> split <;>
    first
      | exact le_refl _
      | exact le_of_lt (by assumption)
      | exact le_of_not_lt (by assumption)

/-! ### Effects of `addNavigationLog` -/

theorem add_fst (s : DMState) (now : Int) (data : LogData) :
    (addNavigationLog s now data).1 = addRecOf now data := rfl

theorem add_navLogs (s : DMState) (now : Int) (data : LogData) :
    (addNavigationLog s now data).2.navigationLogs =
      s.navigationLogs ++ [addRecOf now data] := by
  unfold addNavigationLog
  rw [invalidateCaches_navLogs]
  rfl

theorem add_logsByDate (s : DMState) (now : Int) (data : LogData) :
    (addNavigationLog s now data).2.logsByDate =
      bucketAppend s.logsByDate (addRecOf now data).logDate (addRecOf now data) := by
  unfold addNavigationLog
  rw [invalidateCaches_logsByDate]
  rfl

theorem add_spatialGrid (s : DMState) (now : Int) (data : LogData) :
    (addNavigationLog s now data).2.spatialGrid =
      match dmCoords (addRecOf now data) with
      | some c =>
          bucketAppend s.spatialGrid (⌊c.2 / gridSize⌋, ⌊c.1 / gridSize⌋)
            (addRecOf now data)
      | none => s.spatialGrid := by
  unfold addNavigationLog
  rw [invalidateCaches_spatialGrid]
  rfl

theorem add_spatialBounds (s : DMState) (now : Int) (data : LogData) :
    (addNavigationLog s now data).2.spatialBounds =
      match dmCoords (addRecOf now data) with
      | some c => updateSpatialBounds s.spatialBounds c.1 c.2
      | none => s.spatialBounds := by
  unfold addNavigationLog
  rw [invalidateCaches_spatialBounds]
  unfold updateIndexes
  cases dmCoords (addRecOf now data) <;> rfl

theorem add_dirty (s : DMState) (now : Int) (data : LogData) :
    (addNavigationLog s now data).2.chronologicalDirty = true := by
  unfold addNavigationLog
  rw [invalidateCaches_dirty]
  rfl

theorem add_chronoIdx (s : DMState) (now : Int) (data : LogData) :
    (addNavigationLog s now data).2.chronologicalIndex = s.chronologicalIndex := by
  unfold addNavigationLog
  rw [invalidateCaches_chronoIdx]
  rfl

theorem add_cache (s : DMState) (now : Int) (data : LogData) :
    (addNavigationLog s now data).2.cache = mutationInvalidate s.cache := by
  unfold addNavigationLog
  rw [invalidateCaches_mutation_cache]
  rfl

/-! ### Invariant preservation: add -/

theorem belDate_iff (n : Rec) : ∀ k, decide (n.logDate = k) = true ↔ k = n.logDate := by
  intro k
  simp [eq_comm]

theorem belGrid_iff {n : Rec} {c₀ : Int × Int} (h : gridCellOf n = some c₀) :
    ∀ c, decide (gridCellOf n = some c) = true ↔ c = c₀ := by
  intro c
  simp [h, eq_comm]

theorem belGrid_none {n : Rec} (h : gridCellOf n = none) :
    ∀ c, decide (gridCellOf n = some c) = false := by
  intro c
  simp [h]

theorem inv_add {s : DMState} {now : Int} {data : LogData} (hs : Inv s)
    (hop : opOK s (Op.add now data) = true) : Inv (addNavigationLog s now data).2 := by
  have hop2 : data.logDate.isSome = true ∧ data.positionTime.isSome = true ∧
      data.latitude.isSome = true ∧ data.longitude.isSome = true ∧
      (data.id.getD now) ∉ storeIds s := by
    simpa [opOK, Bool.and_eq_true, and_assoc] using hop
  obtain ⟨hdate, htime, hlat, hlon, hfresh⟩ := hop2
  set n := addRecOf now data with hn
  have hnid : n.id = data.id.getD now := rfl
  constructor
  case fieldsOK =>
      rw [add_navLogs]
      intro r hr
      rcases List.mem_append.mp hr with hr | hr
      · exact hs.fieldsOK r hr
      · rcases List.mem_singleton.mp hr with rfl
        exact ⟨hdate, htime, hlat, hlon⟩
  case idsNodup =>
      rw [add_navLogs, List.map_append]
      refine List.nodup_append.mpr ⟨hs.idsNodup, by simp, ?_⟩
      intro a ha hb
      simp only [List.map_cons, List.map_nil, List.mem_singleton] at hb
      subst hb
      exact hfresh (by simpa [storeIds, hnid] using ha)
  case dateKeysNodup =>
      rw [add_logsByDate]
      exact keys_nodup_bucketAppend _ _ hs.dateKeysNodup
  case gridKeysNodup =>
      rw [add_spatialGrid]
      cases dmCoords n with
      | none => exact hs.gridKeysNodup
      | some c => exact keys_nodup_bucketAppend _ _ hs.gridKeysNodup
  case datePerKey =>
      rw [add_logsByDate, add_navLogs]
      exact perKey_append hs.datePerKey (belDate_iff n)
  case gridPerKey =>
      rw [add_spatialGrid, add_navLogs]
      cases hc : dmCoords n with
      | none =>
          exact perKey_skip_append hs.gridPerKey (belGrid_none (by simp [gridCellOf, hc]))
      | some c =>
          exact perKey_append hs.gridPerKey (belGrid_iff (by simp [gridCellOf, hc]))
  case boundsOK =>
      rw [add_navLogs, add_spatialBounds]
      intro r hr q hq
      cases hc : dmCoords n with
      | none =>
          rcases List.mem_append.mp hr with hr | hr
          · exact hs.boundsOK r hr q hq
          · rcases List.mem_singleton.mp hr with rfl
            rw [hc] at hq
            cases hq
      | some c =>
          obtain ⟨h1, h2, h3, h4⟩ := updateSpatialBounds_le s.spatialBounds c.1 c.2
          rcases List.mem_append.mp hr with hr | hr
          · obtain ⟨g1, g2, g3, g4⟩ := hs.boundsOK r hr q hq
            exact ⟨le_trans h1 g1, le_trans g2 h2, le_trans h3 g3, le_trans g4 h4⟩
          · rcases List.mem_singleton.mp hr with rfl
            rw [hc] at hq
            injection hq with hq
            rw [← hq]
            exact updateSpatialBounds_mem s.spatialBounds c.1 c.2
  case chronoIdx =>
      intro h
      rw [add_dirty] at h
      cases h
  case chronoCache =>
      intro v ts h
      rw [add_cache, jGet_mutationInvalidate] at h
      rw [if_pos (by decide)] at h
      cases h

/-! ### Effects of `removeFromIndexes` / `updateIndexes` (projections) -/

theorem removeFromIndexes_navLogs (s : DMState) (log : Rec) :
    (removeFromIndexes s log).navigationLogs = s.navigationLogs := rfl

theorem removeFromIndexes_logsByDate (s : DMState) (log : Rec) :
    (removeFromIndexes s log).logsByDate =
      bucketRemove s.logsByDate log.logDate log.id := rfl

theorem removeFromIndexes_spatialGrid (s : DMState) (log : Rec) :
    (removeFromIndexes s log).spatialGrid =
      match dmCoords log with
      | some c => bucketRemove s.spatialGrid (⌊c.2 / gridSize⌋, ⌊c.1 / gridSize⌋) log.id
      | none => s.spatialGrid := rfl

theorem removeFromIndexes_spatialBounds (s : DMState) (log : Rec) :
    (removeFromIndexes s log).spatialBounds = s.spatialBounds := rfl

theorem removeFromIndexes_dirty (s : DMState) (log : Rec) :
    (removeFromIndexes s log).chronologicalDirty = true := rfl

theorem removeFromIndexes_chronoIdx (s : DMState) (log : Rec) :
    (removeFromIndexes s log).chronologicalIndex = s.chronologicalIndex := rfl

theorem removeFromIndexes_cache (s : DMState) (log : Rec) :
    (removeFromIndexes s log).cache = s.cache := rfl

theorem updateIndexes_navLogs (s : DMState) (log : Rec) (b : Bool) :
    (updateIndexes s log b).navigationLogs = s.navigationLogs := rfl

theorem updateIndexes_logsByDate (s : DMState) (log : Rec) (b : Bool) :
    (updateIndexes s log b).logsByDate = bucketAppend s.logsByDate log.logDate log := rfl

theorem updateIndexes_spatialGrid (s : DMState) (log : Rec) (b : Bool) :
    (updateIndexes s log b).spatialGrid =
      match dmCoords log with
      | some c => bucketAppend s.spatialGrid (⌊c.2 / gridSize⌋, ⌊c.1 / gridSize⌋) log
      | none => s.spatialGrid := rfl

theorem updateIndexes_spatialBounds_noskip (s : DMState) (log : Rec) :
    (updateIndexes s log false).spatialBounds =
      match dmCoords log with
      | some c => updateSpatialBounds s.spatialBounds c.1 c.2
      | none => s.spatialBounds := by
  unfold updateIndexes
  cases dmCoords log <;> rfl

theorem updateIndexes_dirty (s : DMState) (log : Rec) (b : Bool) :
    (updateIndexes s log b).chronologicalDirty = true := rfl

theorem updateIndexes_chronoIdx (s : DMState) (log : Rec) (b : Bool) :
    (updateIndexes s log b).chronologicalIndex = s.chronologicalIndex := rfl

theorem updateIndexes_cache (s : DMState) (log : Rec) (b : Bool) :
    (updateIndexes s log b).cache = s.cache := rfl

/-! ### Invariant preservation: delete -/

theorem inv_delete {s : DMState} {idArg : Int} (hs : Inv s) :
    Inv (deleteNavigationLog s idArg).2 := by
  cases hrem : removeFirstById s.navigationLogs idArg with
  | none => simpa [deleteNavigationLog, hrem] using hs
  | some p =>
      obtain ⟨e, logs⟩ := p
      obtain ⟨hid, pre, post, hdec, hdec2, hpre⟩ := removeFirstById_eq_some hrem
      have heL : e ∈ s.navigationLogs := by
        rw [hdec]
        exact List.mem_append.mpr (Or.inr (List.mem_cons_self _ _))
      have hperm : (e :: logs).Perm s.navigationLogs := by
        rw [hdec, hdec2]
        exact List.perm_middle.symm
      have hidsU : ∀ x ∈ s.navigationLogs, x.id = e.id → x = e := fun x hx hxe =>
        eq_of_mem_of_id_eq hs.idsNodup hx heL hxe
      have hsub : List.Sublist logs s.navigationLogs := by
        rw [hdec, hdec2]
        exact (List.sublist_cons_self e post).append_left pre
      have hrid : e.id = idArg := hid
      simp only [deleteNavigationLog, hrem]
      constructor
      case fieldsOK =>
          rw [invalidateCaches_navLogs, removeFromIndexes_navLogs]
          intro r hr
          exact hs.fieldsOK r (hsub.mem hr)
      case idsNodup =>
          rw [invalidateCaches_navLogs, removeFromIndexes_navLogs]
          exact hs.idsNodup.sublist (hsub.map _)
      case dateKeysNodup =>
          rw [invalidateCaches_logsByDate, removeFromIndexes_logsByDate]
          exact keys_nodup_bucketRemove _ _ hs.dateKeysNodup
      case gridKeysNodup =>
          rw [invalidateCaches_spatialGrid, removeFromIndexes_spatialGrid]
          cases dmCoords e with
          | none => exact hs.gridKeysNodup
          | some c => exact keys_nodup_bucketRemove _ _ hs.gridKeysNodup
      case datePerKey =>
          rw [invalidateCaches_logsByDate, removeFromIndexes_logsByDate,
            invalidateCaches_navLogs, removeFromIndexes_navLogs]
          exact perKey_remove hs.datePerKey (belDate_iff e) hidsU heL hperm
      case gridPerKey =>
          rw [invalidateCaches_spatialGrid, removeFromIndexes_spatialGrid,
            invalidateCaches_navLogs, removeFromIndexes_navLogs]
          cases hc : dmCoords e with
          | none =>
              exact perKey_skip_remove hs.gridPerKey
                (belGrid_none (by simp [gridCellOf, hc])) hperm
          | some c =>
              exact perKey_remove hs.gridPerKey
                (belGrid_iff (show gridCellOf e = some (⌊c.2 / gridSize⌋, ⌊c.1 / gridSize⌋) by
                  simp [gridCellOf, hc])) hidsU heL hperm
      case boundsOK =>
          rw [invalidateCaches_navLogs, removeFromIndexes_navLogs,
            invalidateCaches_spatialBounds, removeFromIndexes_spatialBounds]
          intro r hr q hq
          exact hs.boundsOK r (hsub.mem hr) q hq
      case chronoIdx =>
          intro h
          rw [invalidateCaches_dirty, removeFromIndexes_dirty] at h
          cases h
      case chronoCache =>
          intro v ts h
          rw [invalidateCaches_mutation_cache, removeFromIndexes_cache,
            jGet_mutationInvalidate] at h
          rw [if_pos (by decide)] at h
          cases h

/-! ### Invariant preservation: update -/

theorem inv_update {s : DMState} {now idArg : Int} {data : LogData} (hs : Inv s)
    (hop : opOK s (Op.update now idArg data) = true) :
    Inv (updateNavigationLog s now idArg data).2 := by
  have hop2 : data.logDate.isSome = true ∧ data.positionTime.isSome = true ∧
      data.latitude.isSome = true ∧ data.longitude.isSome = true ∧
      (data.id = none ∨ data.id = some idArg) := by
    simpa [opOK, Bool.and_eq_true, and_assoc] using hop
  obtain ⟨hdate, htime, hlat, hlon, hidok⟩ := hop2
  cases hrep : replaceFirstById now idArg data s.navigationLogs with
  | none => simpa [updateNavigationLog, hrep] using hs
  | some p =>
      obtain ⟨o, u, logs⟩ := p
      obtain ⟨hid, hu, pre, post, hdec, hdec2, hpre⟩ := replaceFirstById_eq_some hrep
      have huid : u.id = o.id := by
        rw [hu]
        show data.id.getD idArg = o.id
        rcases hidok with h | h <;> rw [h] <;> simp [hid]
      have heL : o ∈ s.navigationLogs := by
        rw [hdec]
        exact List.mem_append.mpr (Or.inr (List.mem_cons_self _ _))
      have hperm : (o :: (pre ++ post)).Perm s.navigationLogs := by
        rw [hdec]
        exact List.perm_middle.symm
      have hidsU : ∀ x ∈ s.navigationLogs, x.id = o.id → x = o := fun x hx hxe =>
        eq_of_mem_of_id_eq hs.idsNodup hx heL hxe
      have hMu : ((pre ++ post) ++ [u]).Perm logs := by
        rw [hdec2]
        exact (List.perm_append_singleton u (pre ++ post)).trans List.perm_middle.symm
      have hoid : o.id = idArg := hid
      simp only [updateNavigationLog, hrep]
      constructor
      case fieldsOK =>
          rw [invalidateCaches_navLogs, updateIndexes_navLogs, removeFromIndexes_navLogs]
          show ∀ r ∈ logs, _
          intro r hr
          rw [hdec2] at hr
          rcases List.mem_append.mp hr with hr | hr
          · refine hs.fieldsOK r ?_
            rw [hdec]
            exact List.mem_append.mpr (Or.inl hr)
          · rcases List.mem_cons.mp hr with rfl | hr
            · rw [hu]
              exact ⟨hdate, htime, hlat, hlon⟩
            · refine hs.fieldsOK r ?_
              rw [hdec]
              exact List.mem_append.mpr (Or.inr (List.mem_cons_of_mem _ hr))
      case idsNodup =>
          rw [invalidateCaches_navLogs, updateIndexes_navLogs, removeFromIndexes_navLogs]
          show (logs.map (fun r => r.id)).Nodup
          have : logs.map (fun r => r.id) = s.navigationLogs.map (fun r => r.id) := by
            rw [hdec, hdec2]
            simp [huid]
          rw [this]
          exact hs.idsNodup
      case dateKeysNodup =>
          rw [invalidateCaches_logsByDate, updateIndexes_logsByDate,
            removeFromIndexes_logsByDate]
          exact keys_nodup_bucketAppend _ _ (keys_nodup_bucketRemove _ _ hs.dateKeysNodup)
      case gridKeysNodup =>
          rw [invalidateCaches_spatialGrid, updateIndexes_spatialGrid,
            removeFromIndexes_spatialGrid]
          cases dmCoords u <;> cases dmCoords o <;>
            first
              | exact hs.gridKeysNodup
              | exact keys_nodup_bucketRemove _ _ hs.gridKeysNodup
              | exact keys_nodup_bucketAppend _ _ hs.gridKeysNodup
              | exact keys_nodup_bucketAppend _ _
                  (keys_nodup_bucketRemove _ _ hs.gridKeysNodup)
      case datePerKey =>
          rw [invalidateCaches_logsByDate, updateIndexes_logsByDate,
            removeFromIndexes_logsByDate, invalidateCaches_navLogs,
            updateIndexes_navLogs, removeFromIndexes_navLogs]
          have step1 := perKey_remove hs.datePerKey (belDate_iff o) hidsU heL hperm
          have step2 := perKey_append step1 (belDate_iff u)
          intro k
          exact (step2 k).trans (hMu.filter _)
      case gridPerKey =>
          rw [invalidateCaches_spatialGrid, updateIndexes_spatialGrid,
            removeFromIndexes_spatialGrid, invalidateCaches_navLogs,
            updateIndexes_navLogs, removeFromIndexes_navLogs]
          have step1 : ∀ c, (bucketAt (match dmCoords o with
              | some c => bucketRemove s.spatialGrid
                  (⌊c.2 / gridSize⌋, ⌊c.1 / gridSize⌋) o.id
              | none => s.spatialGrid) c).Perm
                ((pre ++ post).filter (fun r => decide (gridCellOf r = some c))) := by
            cases hc : dmCoords o with
            | none =>
                exact perKey_skip_remove hs.gridPerKey
                  (belGrid_none (by simp [gridCellOf, hc])) hperm
            | some c0 =>
                exact perKey_remove hs.gridPerKey
                  (belGrid_iff (show gridCellOf o =
                      some (⌊c0.2 / gridSize⌋, ⌊c0.1 / gridSize⌋) by
                    simp [gridCellOf, hc])) hidsU heL hperm
          cases hcu : dmCoords u with
          | none =>
              have hu_none : gridCellOf u = none := by simp [gridCellOf, hcu]
              have hskip := perKey_skip_append step1 (belGrid_none hu_none)
              intro k
              exact (hskip k).trans (hMu.filter _)
          | some cu =>
              have happ := perKey_append step1
                (belGrid_iff (show gridCellOf u =
                    some (⌊cu.2 / gridSize⌋, ⌊cu.1 / gridSize⌋) by
                  simp [gridCellOf, hcu]))
              intro k
              exact (happ k).trans (hMu.filter _)
      case boundsOK =>
          rw [invalidateCaches_navLogs, updateIndexes_navLogs, removeFromIndexes_navLogs,
            invalidateCaches_spatialBounds, updateIndexes_spatialBounds_noskip,
            removeFromIndexes_spatialBounds]
          intro r hr q hq
          rw [hdec2] at hr
          cases hcu : dmCoords u with
          | none =>
              rcases List.mem_append.mp hr with hr | hr
              · refine hs.boundsOK r ?_ q hq
                rw [hdec]
                exact List.mem_append.mpr (Or.inl hr)
              · rcases List.mem_cons.mp hr with rfl | hr
                · rw [hcu] at hq
                  cases hq
                · refine hs.boundsOK r ?_ q hq
                  rw [hdec]
                  exact List.mem_append.mpr (Or.inr (List.mem_cons_of_mem _ hr))
          | some c =>
              obtain ⟨h1, h2, h3, h4⟩ := updateSpatialBounds_le s.spatialBounds c.1 c.2
              rcases List.mem_append.mp hr with hr | hr
              · obtain ⟨g1, g2, g3, g4⟩ := hs.boundsOK r
                  (by rw [hdec]; exact List.mem_append.mpr (Or.inl hr)) q hq
                exact ⟨le_trans h1 g1, le_trans g2 h2, le_trans h3 g3, le_trans g4 h4⟩
              · rcases List.mem_cons.mp hr with rfl | hr
                · rw [hcu] at hq
                  injection hq with hq
                  rw [← hq]
                  exact updateSpatialBounds_mem s.spatialBounds c.1 c.2
                · obtain ⟨g1, g2, g3, g4⟩ := hs.boundsOK r
                    (by rw [hdec]
                        exact List.mem_append.mpr (Or.inr (List.mem_cons_of_mem _ hr)))
                    q hq
                  exact ⟨le_trans h1 g1, le_trans g2 h2, le_trans h3 g3, le_trans g4 h4⟩
      case chronoIdx =>
          intro h
          rw [invalidateCaches_dirty, updateIndexes_dirty] at h
          cases h
      case chronoCache =>
          intro v ts h
          rw [invalidateCaches_mutation_cache, updateIndexes_cache,
            removeFromIndexes_cache, jGet_mutationInvalidate] at h
          rw [if_pos (by decide)] at h
          cases h

/-! ### Invariant preservation: queries (cache-only state changes) -/

theorem inv_of_fields {s t : DMState} (hs : Inv s)
    (h1 : t.navigationLogs = s.navigationLogs)
    (h2 : t.logsByDate = s.logsByDate)
    (h3 : t.spatialGrid = s.spatialGrid)
    (h4 : t.spatialBounds = s.spatialBounds)
    (h5 : t.chronologicalDirty = s.chronologicalDirty)
    (h6 : t.chronologicalIndex = s.chronologicalIndex)
    (hcc : ∀ v ts, jGet t.cache "chronological_all" = some (v, ts) →
      t.chronologicalDirty = false ∧ v = chronoSort t.navigationLogs) : Inv t := by
  constructor
  case fieldsOK => rw [h1]; exact hs.fieldsOK
  case idsNodup => rw [h1]; exact hs.idsNodup
  case dateKeysNodup => rw [h2]; exact hs.dateKeysNodup
  case gridKeysNodup => rw [h3]; exact hs.gridKeysNodup
  case datePerKey => rw [h2, h1]; exact hs.datePerKey
  case gridPerKey => rw [h3, h1]; exact hs.gridPerKey
  case boundsOK => rw [h1, h4]; exact hs.boundsOK
  case chronoIdx => rw [h5, h6, h1]; exact hs.chronoIdx
  case chronoCache => exact hcc

theorem ne_chrono_of_head {t : String} {c : Char} {cs : List Char}
    (ht : t.toList = c :: cs) (hc : c ≠ 'c') : "chronological_all" ≠ t := by
  intro he
  rw [← he] at ht
  have h3 : ("chronological_all").toList = 'c' :: ("hronological_all").toList := rfl
  rw [h3] at ht
  injection ht with ha _
  exact hc ha.symm

theorem ne_chrono_append (a b : String) (c : Char) (cs : List Char)
    (ha : a.toList = c :: cs) (hc : c ≠ 'c') : "chronological_all" ≠ a ++ b :=
  ne_chrono_of_head (by rw [stringToList_append, ha]; rfl) hc

theorem inv_getCached {s : DMState} (now : Int) (key : String) (hs : Inv s) :
    Inv (getCached s now key).2 := by
  obtain ⟨h1, h2, h3, h4, h5, h6⟩ := getCached_snd_others s now key
  refine inv_of_fields hs h1 h2 h3 h4 h5 h6 ?_
  intro w ts h
  have h0 := jGet_getCached_some s now key "chronological_all" (w, ts) h
  obtain ⟨hd, hv⟩ := hs.chronoCache w ts h0
  exact ⟨by rw [h5]; exact hd, by rw [h1]; exact hv⟩

theorem inv_setCached {s : DMState} {now : Int} {key : String} {v : List Rec} (hs : Inv s)
    (hne : "chronological_all" ≠ key) : Inv (setCached s now key v) := by
  obtain ⟨h1, h2, h3, h4, h5, h6⟩ := setCached_others s now key v
  refine inv_of_fields hs h1 h2 h3 h4 h5 h6 ?_
  intro w ts h
  have h0 := jGet_setCached_other s now key "chronological_all" v hne (w, ts) h
  obtain ⟨hd, hv⟩ := hs.chronoCache w ts h0
  exact ⟨by rw [h5]; exact hd, by rw [h1]; exact hv⟩

theorem inv_qDate {s : DMState} {now : Int} {date : String} (hs : Inv s) :
    Inv (getLogsByDate s now date).2.2 := by
  have hne : "chronological_all" ≠ "date_" ++ date :=
    ne_chrono_append "date_" date 'd' _ rfl (by decide)
  cases hg : getCached s now ("date_" ++ date) with
  | mk o s1 =>
      have h1 : Inv s1 := by
        have h := inv_getCached now ("date_" ++ date) hs
        rw [hg] at h
        exact h
      cases o with
      | some v => simpa [getLogsByDate, hg] using h1
      | none =>
          simp only [getLogsByDate, hg]
          exact inv_setCached h1 hne

theorem inv_qDateRange {s : DMState} {now : Int} {a b : String} (hs : Inv s) :
    Inv (getLogsByDateRange s now a b).2.2 := by
  have hne : "chronological_all" ≠ "dateRange_" ++ a ++ "_" ++ b := by
    rw [String.append_assoc, String.append_assoc]
    exact ne_chrono_append "dateRange_" (a ++ ("_" ++ b)) 'd' _ rfl (by decide)
  cases hg : getCached s now ("dateRange_" ++ a ++ "_" ++ b) with
  | mk o s1 =>
      have h1 : Inv s1 := by
        have h := inv_getCached now ("dateRange_" ++ a ++ "_" ++ b) hs
        rw [hg] at h
        exact h
      cases o with
      | some v => simpa [getLogsByDateRange, hg] using h1
      | none =>
          simp only [getLogsByDateRange, hg]
          exact inv_setCached h1 hne

theorem inv_chronoRebuild {s : DMState} (now : Int) (hs : Inv s) :
    Inv (chronoRebuild s now).2 := by
  obtain ⟨h1, h2, h3, h4, h5, h6⟩ := setCached_others
      { s with
          chronologicalIndex := chronoSort s.navigationLogs
          chronologicalDirty := false }
      now "chronological_all" (chronoSort s.navigationLogs)
  show Inv (setCached
      { s with
          chronologicalIndex := chronoSort s.navigationLogs
          chronologicalDirty := false }
      now "chronological_all" (chronoSort s.navigationLogs))
  constructor
  case fieldsOK => rw [h1]; exact hs.fieldsOK
  case idsNodup => rw [h1]; exact hs.idsNodup
  case dateKeysNodup => rw [h2]; exact hs.dateKeysNodup
  case gridKeysNodup => rw [h3]; exact hs.gridKeysNodup
  case datePerKey => rw [h2, h1]; exact hs.datePerKey
  case gridPerKey => rw [h3, h1]; exact hs.gridPerKey
  case boundsOK => rw [h1, h4]; exact hs.boundsOK
  case chronoIdx =>
      intro _
      rw [h6, h1]
  case chronoCache =>
      intro w ts h
      rw [jGet_setCached_self] at h
      have hp : chronoSort s.navigationLogs = w ∧ (now = ts) := by
        have h2p := Option.some.inj h
        exact ⟨congrArg Prod.fst h2p, congrArg Prod.snd h2p⟩
      refine ⟨by rw [h5], ?_⟩
      rw [h1, ← hp.1]

theorem inv_qChrono {s : DMState} {now : Int} (hs : Inv s) :
    Inv (getChronologicalLogs s now).2 := by
  unfold getChronologicalLogs
  split
  · exact hs
  · cases hg : getCached s now "chronological_all" with
    | mk o s1 =>
        have h1 : Inv s1 := by
          have h := inv_getCached now "chronological_all" hs
          rw [hg] at h
          exact h
        cases o with
        | some v =>
            dsimp only
            split
            · exact h1
            · exact inv_chronoRebuild now h1
        | none => exact inv_chronoRebuild now h1

theorem inv_qBounds {s : DMState} {now : Int} {ne sw : ℚ × ℚ} (hs : Inv s) :
    Inv (getLogsInBounds s now ne sw).2 := by
  have hne : "chronological_all" ≠ boundsKey ne sw := by
    unfold boundsKey
    rw [String.append_assoc, String.append_assoc, String.append_assoc,
      String.append_assoc, String.append_assoc, String.append_assoc]
    exact ne_chrono_append "bounds_" _ 'b' _ rfl (by decide)
  cases hg : getCached s now (boundsKey ne sw) with
  | mk o s1 =>
      have h1 : Inv s1 := by
        have h := inv_getCached now (boundsKey ne sw) hs
        rw [hg] at h
        exact h
      cases o with
      | some v => simpa [getLogsInBounds, hg] using h1
      | none =>
          simp only [getLogsInBounds, hg]
          split
          · exact h1
          · exact inv_setCached h1 hne

/-! ### The invariant holds in every reachable state -/

theorem inv_init : Inv initState := by
  constructor
  case fieldsOK => intro r hr; cases hr
  case idsNodup => exact List.nodup_nil
  case dateKeysNodup => exact List.nodup_nil
  case gridKeysNodup => exact List.nodup_nil
  case datePerKey => intro k; simp [initState, bucketAt, jGet]
  case gridPerKey => intro c; simp [initState, bucketAt, jGet]
  case boundsOK => intro r hr; cases hr
  case chronoIdx => intro h; cases h
  case chronoCache => intro v ts h; cases h

theorem inv_step {s : DMState} {op : Op} (hs : Inv s) (hop : opOK s op = true) :
    Inv (step s op) := by
  cases op with
  | add now data => exact inv_add hs hop
  | update now idArg data => exact inv_update hs hop
  | delete idArg => exact inv_delete hs
  | qDate now date => exact inv_qDate hs
  | qDateRange now a b => exact inv_qDateRange hs
  | qChrono now => exact inv_qChrono hs
  | qBounds now ne sw => exact inv_qBounds hs

theorem inv_run {s : DMState} {ops : List Op} (hs : Inv s)
    (hg : goodRun s ops = true) : Inv (run s ops) := by
  induction ops generalizing s with
  | nil => exact hs
  | cons op ops ih =>
      rw [goodRun, Bool.and_eq_true] at hg
      exact ih (inv_step hs hg.1) hg.2

theorem inv_reachable {s : DMState} (h : Reachable s) : Inv s := by
  obtain ⟨ops, hg, hrun⟩ := h
  rw [← hrun]
  exact inv_run inv_init hg

/-! ### Query-path helper facts -/

theorem mem_intRange {a b v : Int} : v ∈ intRange a b ↔ a ≤ v ∧ v ≤ b := by
  constructor
  · intro h
    simp only [intRange, List.mem_map, List.mem_range] at h
    obtain ⟨i, hi, hv⟩ := h
    omega
  · intro h
    simp only [intRange, List.mem_map, List.mem_range]
    refine ⟨(v - a).toNat, ?_, ?_⟩ <;> omega

theorem getCached_hit {s : DMState} {now : Int} {key : String} {v : List Rec}
    {t : DMState} (h : getCached s now key = (some v, t)) :
    t = s ∧ ∃ ts, jGet s.cache key = some (v, ts) := by
  unfold getCached at h
  cases hj : jGet s.cache key with
  | none => rw [hj] at h; simp at h
  | some p =>
      obtain ⟨pv, pts⟩ := p
      rw [hj] at h
      dsimp only at h
      split at h
      · simp at h
      · rw [Prod.mk.injEq] at h
        obtain ⟨h1, h2⟩ := h
        injection h1 with h1
        subst h2
        rw [← h1]
        exact ⟨rfl, pts, rfl⟩

theorem getChrono_fst {s : DMState} {now : Int} (hs : Inv s) :
    (getChronologicalLogs s now).1 = chronoSort s.navigationLogs := by
  unfold getChronologicalLogs
  split
  case isTrue hcond => exact hs.chronoIdx hcond.1
  case isFalse =>
      cases hg : getCached s now "chronological_all" with
      | mk o s1 =>
          have ho := getCached_snd_others s now "chronological_all"
          rw [hg] at ho
          have hnav : s1.navigationLogs = s.navigationLogs := ho.1
          cases o with
          | some v =>
              dsimp only
              split
              · obtain ⟨hts, ts, hjg⟩ := getCached_hit hg
                exact (hs.chronoCache v ts hjg).2
              · show (chronoRebuild s1 now).1 = _
                rw [show (chronoRebuild s1 now).1 = chronoSort s1.navigationLogs from rfl,
                  hnav]
          | none =>
              show (chronoRebuild s1 now).1 = _
              rw [show (chronoRebuild s1 now).1 = chronoSort s1.navigationLogs from rfl,
                hnav]

/-! ### Exact evaluation of the stale bounds-cache scenario -/

theorem invalidateCaches_logsById (s : DMState) (cats : List String) :
    (invalidateCaches s cats).logsById = s.logsById := by
  unfold invalidateCaches
  split <;> rfl

theorem add_logsById (s : DMState) (now : Int) (data : LogData) :
    (addNavigationLog s now data).2.logsById =
      jSet s.logsById (addRecOf now data).id (addRecOf now data) := by
  unfold addNavigationLog
  rw [invalidateCaches_logsById]
  rfl

theorem minutesVal_z : minutesVal 0 (['0'] : List Char) = 0 := by
  have hd : digitsVal ['0'] = 0 := by decide
  simp only [minutesVal, fracVal, hd]
  norm_num

theorem signedDecimal_zN : signedDecimal 0 0 'N' = 0 := by
  simp only [signedDecimal]
  rw [if_neg (by decide)]
  norm_num

theorem signedDecimal_zE : signedDecimal 0 0 'E' = 0 := by
  simp only [signedDecimal]
  rw [if_neg (by decide)]
  norm_num

theorem dmParse_latZ : dmParseCoordinate latZ = some 0 := by
  unfold dmParseCoordinate
  rw [show dmSearch latZ.toList = some (0, (0, ['0']), 'N') from by decide]
  simp only [Option.map]
  rw [minutesVal_z, signedDecimal_zN]

theorem dmParse_lonZ : dmParseCoordinate lonZ = some 0 := by
  unfold dmParseCoordinate
  rw [show dmSearch lonZ.toList = some (0, (0, ['0']), 'E') from by decide]
  simp only [Option.map]
  rw [minutesVal_z, signedDecimal_zE]

theorem dmCoords_recZ1 : dmCoords recZ1 = some (0, 0) := by
  simp only [dmCoords, recZ1, dmParse_latZ, dmParse_lonZ]

theorem dmCoords_recZ2 : dmCoords recZ2 = some (0, 0) := by
  simp only [dmCoords, recZ2, dmParse_latZ, dmParse_lonZ]

theorem floor0div : ⌊(0 : ℚ) / gridSize⌋ = 0 := by norm_num [gridSize]

theorem ceil0div : ⌈(0 : ℚ) / gridSize⌉ = 0 := by norm_num [gridSize]

theorem inBox_recZ1 : inBox ((0 : ℚ), (0 : ℚ)) ((0 : ℚ), (0 : ℚ)) recZ1 = true := by
  unfold inBox
  rw [dmCoords_recZ1]
  decide

theorem inBox_recZ2 : inBox sw0 ne0 recZ2 = true := by
  unfold inBox
  rw [dmCoords_recZ2]
  decide

theorem stepZ1 : step initState (Op.add 100 dataZ1) = S1z := by
  have hrec : addRecOf 100 dataZ1 = recZ1 := by decide
  show (addNavigationLog initState 100 dataZ1).2 = S1z
  refine DMState.ext ?_ ?_ ?_ ?_ ?_ ?_ ?_ ?_
  · rw [add_navLogs, hrec]
    decide
  · rw [add_logsById, hrec]
    decide
  · rw [add_logsByDate, hrec]
    decide
  · rw [add_chronoIdx]
    decide
  · rw [add_dirty]
    decide
  · rw [add_spatialGrid, hrec, dmCoords_recZ1]
    dsimp only
    rw [floor0div]
    decide
  · rw [add_spatialBounds, hrec, dmCoords_recZ1]
    decide
  · rw [add_cache]
    decide

theorem qBounds_S1z : getLogsInBounds S1z 200 ne0 sw0 = ([recZ1], S2z) := by
  have hget : getCached S1z 200 (boundsKey ne0 sw0) = (none, S1z) := by decide
  unfold getLogsInBounds
  dsimp only
  rw [hget]
  dsimp only
  rw [if_neg (by decide)]
  simp only [sw0, ne0]
  rw [floor0div, ceil0div]
  rw [show intRange 0 0 = [0] from by decide]
  simp only [List.flatMap_cons, List.flatMap_nil, List.append_nil]
  rw [show jGet S1z.spatialGrid ((0 : Int), (0 : Int)) = some [recZ1] from by decide]
  simp only [Option.getD_some]
  rw [show List.filter (inBox ((0 : ℚ), (0 : ℚ)) ((0 : ℚ), (0 : ℚ))) [recZ1] = [recZ1]
    from by simp only [List.filter_cons, List.filter_nil, inBox_recZ1, if_true]]
  decide

theorem stepZ2 : step S1z (Op.qBounds 200 ne0 sw0) = S2z := by
  show (getLogsInBounds S1z 200 ne0 sw0).2 = S2z
  rw [qBounds_S1z]

theorem stepZ3 : step S2z (Op.add 300 dataZ2) = S3z := by
  have hrec : addRecOf 300 dataZ2 = recZ2 := by decide
  show (addNavigationLog S2z 300 dataZ2).2 = S3z
  refine DMState.ext ?_ ?_ ?_ ?_ ?_ ?_ ?_ ?_
  · rw [add_navLogs, hrec]
    decide
  · rw [add_logsById, hrec]
    decide
  · rw [add_logsByDate, hrec]
    decide
  · rw [add_chronoIdx]
    decide
  · rw [add_dirty]
    decide
  · rw [add_spatialGrid, hrec, dmCoords_recZ2]
    dsimp only
    rw [floor0div]
    decide
  · rw [add_spatialBounds, hrec, dmCoords_recZ2]
    decide
  · rw [add_cache]
    decide

theorem qBounds_S3z : getLogsInBounds S3z 400 ne0 sw0 = ([recZ1], S3z) := by
  have hget : getCached S3z 400 (boundsKey ne0 sw0) = (some [recZ1], S3z) := by decide
  unfold getLogsInBounds
  dsimp only
  rw [hget]

theorem stateC6_eq : stateC6 = S3z := by
  show run initState opsC6 = S3z
  rw [show run initState opsC6 =
      step (step (step initState (Op.add 100 dataZ1)) (Op.qBounds 200 ne0 sw0))
        (Op.add 300 dataZ2) from rfl]
  rw [stepZ1, stepZ2, stepZ3]

theorem goodRun_C6 : goodRun initState opsC6 = true := by
  have h1 : opOK initState (Op.add 100 dataZ1) = true := by decide
  have h2 : opOK S1z (Op.qBounds 200 ne0 sw0) = true := by decide
  have h3 : opOK S2z (Op.add 300 dataZ2) = true := by decide
  rw [show opsC6 = [Op.add 100 dataZ1, Op.qBounds 200 ne0 sw0, Op.add 300 dataZ2]
    from rfl]
  rw [goodRun, stepZ1, goodRun, stepZ2, goodRun, h1, h2, h3]
  rfl

theorem getLogsInBounds_fst_miss {s : DMState} {now : Int} {ne sw : ℚ × ℚ}
    (hmiss : jGet s.cache (boundsKey ne sw) = none) :
    (getLogsInBounds s now ne sw).1 =
      if s.spatialBounds.maxLat < sw.1 ∨ ne.1 < s.spatialBounds.minLat ∨
         s.spatialBounds.maxLon < sw.2 ∨ ne.2 < s.spatialBounds.minLon then ([] : List Rec)
      else (intRange ⌊sw.2 / gridSize⌋ ⌈ne.2 / gridSize⌉).flatMap (fun x =>
          (intRange ⌊sw.1 / gridSize⌋ ⌈ne.1 / gridSize⌉).flatMap (fun y =>
            List.filter (inBox sw ne) ((jGet s.spatialGrid (x, y)).getD []))) := by
  have hget : getCached s now (boundsKey ne sw) =
      (none, { s with cache := jDelete s.cache (boundsKey ne sw) }) := by
    unfold getCached
    rw [hmiss]
  unfold getLogsInBounds
  dsimp only
  rw [hget]
  dsimp only
  split
  case isTrue hc => rfl
  case isFalse hc => rfl

/-! ### The claims -/

/-- C9: in `distanceToLineSegment`, a segment whose two endpoints are
identical (zero length) yields the geodesic distance from the query point
to that endpoint — the `lenSq === 0` guard runs before the division, so
the division by `lenSq` is never reached on a degenerate segment. -/
theorem C9_degenerate_segment (calcDist : ℚ → ℚ → ℚ → ℚ → ℚ)
    (px py x1 y1 x2 y2 : ℚ) (hdeg : x2 = x1 ∧ y2 = y1) :
    distanceToLineSegment calcDist px py x1 y1 x2 y2 = calcDist py px y1 x1 := by
  obtain ⟨h1, h2⟩ := hdeg
  subst h1
  subst h2
  unfold distanceToLineSegment
  simp

theorem C9_degenerate_segment_witness :
    distanceToLineSegment (fun a b c d => a + b + c + d) 1 2 3 4 3 4 =
      (2 : ℚ) + 1 + 4 + 3 :=
  C9_degenerate_segment (fun a b c d => a + b + c + d) 1 2 3 4 3 4 ⟨rfl, rfl⟩

/-- C10: when no record carries the requested id, `updateNavigationLog`
returns `null` and `deleteNavigationLog` returns `false`, and both leave
the entire state — store, indexes, dirty flag and cache — exactly
unchanged. -/
theorem C10_missing_id_is_noop (s : DMState) (now idArg : Int) (data : LogData)
    (habs : ∀ r ∈ s.navigationLogs, r.id ≠ idArg) :
    updateNavigationLog s now idArg data = (none, s) ∧
    deleteNavigationLog s idArg = (false, s) := by
  have h1 : replaceFirstById now idArg data s.navigationLogs = none :=
    replaceFirstById_eq_none.mpr habs
  have h2 : removeFirstById s.navigationLogs idArg = none :=
    removeFirstById_eq_none.mpr habs
  constructor
  · unfold updateNavigationLog
    rw [h1]
  · unfold deleteNavigationLog
    rw [h2]

theorem C10_missing_id_is_noop_witness :
    updateNavigationLog stateC 400 9 dataP = (none, stateC) ∧
    deleteNavigationLog stateC 9 = (false, stateC) :=
  C10_missing_id_is_noop stateC 400 9 dataP (by decide)

/-- C4 (amended): the id assigned by `addNavigationLog` is the supplied
`logData.id` when present and otherwise the mutation instant
`Date.now()` — not `max(existing ids) + 1`. -/
theorem C4_add_id_assignment (s : DMState) (now : Int) (data : LogData) :
    (addNavigationLog s now data).1.id = data.id.getD now := rfl

/-- C4 counterexample: on a store whose only id is `7`, an add that
supplies no id at instant 500 is assigned id 500, not
`max(existing ids) + 1 = 8`; and after an id-less add at instant 100 and
its deletion, a second id-less add at instant 100 is assigned the same
id 100 again — the id of a deleted record is reused. -/
theorem C4_counterexample_timestamp_not_max :
    goodRun initState [Op.add 100 dataC] = true ∧
    storeIds stateC = [7] ∧
    (addNavigationLog stateC 500 dataE).1.id = 500 ∧
    ((500 : Int) ≠ 8) ∧
    goodRun initState [Op.add 100 dataE, Op.delete 100, Op.add 100 dataE] = true ∧
    (run initState [Op.add 100 dataE, Op.delete 100]).navigationLogs = [] ∧
    (addNavigationLog (run initState [Op.add 100 dataE, Op.delete 100]) 100 dataE).1.id
      = 100 ∧
    (addNavigationLog initState 100 dataE).1.id = 100 := by
  decide

/-- C3 (code bug): `updateNavigationLog(id, partial)` does not merge the
partial object into the stored record — the replacement literal
`{id, entryTimestamp, lastModified, ...logData}` keeps only the three
defaulted properties, so every field the partial does not supply is
dropped.  On the store holding record 7 (which has a latitude), the
documented partial update `{remarks: "Updated remarks"}` produces a
record whose `latitude` and `logDate` are gone, while `entryTimestamp`
is preserved and `lastModified` is set to the mutation instant; in
general the replacement record's fields equal the partial object's
fields. -/
theorem C3_update_drops_unsupplied_fields :
    ((updateNavigationLog stateC 400 7 dataP).1.map
      (fun r => (r.latitude, r.logDate, r.entryTimestamp, r.lastModified, r.remarks)) =
      some (none, none, some 100, some 400, some "Updated remarks")) ∧
    ((jGet stateC.logsById 7).map (fun r => r.latitude) = some (some latC)) ∧
    (∀ oldLog : Rec, ∀ now idArg : Int, ∀ d : LogData,
      (mkUpdatedLog oldLog now idArg d).latitude = d.latitude ∧
      (mkUpdatedLog oldLog now idArg d).remarks = d.remarks) :=
  ⟨by decide, by decide, fun _ _ _ _ => ⟨rfl, rfl⟩⟩

/-- C2 (amended): every `addNavigationLog`, every successful
`updateNavigationLog` and every successful `deleteNavigationLog` filters
the query cache through `_invalidateCaches(["chronological", "dateRange"])`:
every entry whose signature starts with one of those two prefixes is
removed, every other entry survives with its binding — in particular
every `bounds_` entry survives, whether or not the mutation changed
spatial fields. -/
theorem C2_mutations_invalidate (s : DMState) (now idArg : Int) (data : LogData)
    (m : List (String × (List Rec × Int))) (k : String) :
    ((addNavigationLog s now data).2.cache = mutationInvalidate s.cache) ∧
    ((updateNavigationLog s now idArg data).1.isSome = true →
      (updateNavigationLog s now idArg data).2.cache = mutationInvalidate s.cache) ∧
    ((deleteNavigationLog s idArg).1 = true →
      (deleteNavigationLog s idArg).2.cache = mutationInvalidate s.cache) ∧
    (jGet (mutationInvalidate m) k =
      if jsStartsWith k "chronological" || jsStartsWith k "dateRange" then none
      else jGet m k) ∧
    (jsStartsWith k "bounds_" = true → jGet (mutationInvalidate m) k = jGet m k) := by
  refine ⟨add_cache s now data, ?_, ?_, jGet_mutationInvalidate m k, ?_⟩
  · intro h
    cases hrep : replaceFirstById now idArg data s.navigationLogs with
    | none => simp [updateNavigationLog, hrep] at h
    | some p =>
        obtain ⟨o, u, logs⟩ := p
        simp only [updateNavigationLog, hrep]
        rw [invalidateCaches_mutation_cache, updateIndexes_cache, removeFromIndexes_cache]
  · intro h
    cases hrem : removeFirstById s.navigationLogs idArg with
    | none => simp [deleteNavigationLog, hrem] at h
    | some p =>
        obtain ⟨e, logs⟩ := p
        simp only [deleteNavigationLog, hrem]
        rw [invalidateCaches_mutation_cache, removeFromIndexes_cache]
  · intro hb
    have h1 : jsStartsWith k "chronological" = false :=
      jsStartsWith_head_ne
        (show ("bounds_").toList = 'b' :: ("ounds_").toList from rfl)
        (show ("chronological").toList = 'c' :: ("hronological").toList from rfl)
        (by decide) hb
    have h2 : jsStartsWith k "dateRange" = false :=
      jsStartsWith_head_ne
        (show ("bounds_").toList = 'b' :: ("ounds_").toList from rfl)
        (show ("dateRange").toList = 'd' :: ("ateRange").toList from rfl)
        (by decide) hb
    rw [jGet_mutationInvalidate, h1, h2]
    simp

theorem C2_mutations_invalidate_witness :
    (updateNavigationLog stateCq 300 7 dataC2).2.cache =
      mutationInvalidate stateCq.cache :=
  (C2_mutations_invalidate stateCq 300 7 dataC2 [] "x").2.1 (by decide)

/-- C2 counterexample: a reachable state holds a live `bounds_` cache
entry; an update that changes the record's latitude (a spatial field)
succeeds, yet the `bounds_` entry is still present afterwards — the
`bounds` category is never invalidated by a mutation, contradicting the
claimed conditional invalidation. -/
theorem C2_counterexample_bounds_survive_spatial_update :
    goodRun initState
      [Op.add 100 dataC,
       Op.qBounds 200 ((90 : ℚ), (180 : ℚ)) ((-90 : ℚ), (-180 : ℚ))] = true ∧
    (jGet stateCq.cache
      (boundsKey ((90 : ℚ), (180 : ℚ)) ((-90 : ℚ), (-180 : ℚ)))).isSome = true ∧
    (updateNavigationLog stateCq 300 7 dataC2).1.isSome = true ∧
    (jGet stateCq2.cache
      (boundsKey ((90 : ℚ), (180 : ℚ)) ((-90 : ℚ), (-180 : ℚ)))).isSome = true := by
  decide

/-- C1: in every reachable state, the set of ids reachable by unioning
every by-date bucket equals the set of store ids with a date, and every
record sitting in a by-date or spatial-grid bucket is a live store
record whose current date (respectively current grid cell) matches that
bucket's key — no stale references remain after any well-formed
mutation sequence. -/
theorem C1_index_consistency {s : DMState} (h : Reachable s) :
    (∀ i : Int, i ∈ dateIndexIds s ↔ i ∈ storeIdsWithDate s) ∧
    (∀ p ∈ s.logsByDate, ∀ r ∈ p.2, r ∈ s.navigationLogs ∧ r.logDate = p.1) ∧
    (∀ p ∈ s.spatialGrid, ∀ r ∈ p.2, r ∈ s.navigationLogs ∧ gridCellOf r = some p.1) := by
  have hs := inv_reachable h
  have hdate : ∀ p ∈ s.logsByDate, ∀ r ∈ p.2,
      r ∈ s.navigationLogs ∧ r.logDate = p.1 := by
    rintro ⟨k, b⟩ hp r hr
    have hj : jGet s.logsByDate k = some b :=
      jGet_eq_some_of_mem_nodup hs.dateKeysNodup hp
    have hb : r ∈ bucketAt s.logsByDate k := by
      rw [bucketAt, hj]
      exact hr
    have hf := (hs.datePerKey k).mem_iff.mp hb
    obtain ⟨hnav, hd⟩ := List.mem_filter.mp hf
    exact ⟨hnav, of_decide_eq_true hd⟩
  have hgrid : ∀ p ∈ s.spatialGrid, ∀ r ∈ p.2,
      r ∈ s.navigationLogs ∧ gridCellOf r = some p.1 := by
    rintro ⟨c, b⟩ hp r hr
    have hj : jGet s.spatialGrid c = some b :=
      jGet_eq_some_of_mem_nodup hs.gridKeysNodup hp
    have hb : r ∈ bucketAt s.spatialGrid c := by
      rw [bucketAt, hj]
      exact hr
    have hf := (hs.gridPerKey c).mem_iff.mp hb
    obtain ⟨hnav, hd⟩ := List.mem_filter.mp hf
    exact ⟨hnav, of_decide_eq_true hd⟩
  refine ⟨?_, hdate, hgrid⟩
  intro i
  constructor
  · intro hi
    obtain ⟨r, hr, hri⟩ := List.mem_map.mp hi
    obtain ⟨p, hp, hrp⟩ := List.mem_flatMap.mp hr
    obtain ⟨hnav, _⟩ := hdate p hp r hrp
    refine List.mem_map.mpr ⟨r, ?_, hri⟩
    exact List.mem_filter.mpr ⟨hnav, (hs.fieldsOK r hnav).1⟩
  · intro hi
    obtain ⟨r, hr, hri⟩ := List.mem_map.mp hi
    obtain ⟨hnav, _⟩ := List.mem_filter.mp hr
    have hbf : r ∈ bucketAt s.logsByDate r.logDate :=
      (hs.datePerKey r.logDate).mem_iff.mpr
        (List.mem_filter.mpr ⟨hnav, by simp⟩)
    refine List.mem_map.mpr ⟨r, ?_, hri⟩
    cases hj : jGet s.logsByDate r.logDate with
    | none =>
        rw [bucketAt, hj] at hbf
        cases hbf
    | some b =>
        rw [bucketAt, hj] at hbf
        exact List.mem_flatMap.mpr ⟨(r.logDate, b), mem_of_jGet_eq_some hj, hbf⟩

theorem C1_index_consistency_witness :
    (2 : Int) ∈ dateIndexIds stateAB ↔ (2 : Int) ∈ storeIdsWithDate stateAB :=
  (C1_index_consistency
    ⟨[Op.add 100 dataA, Op.add 200 dataB], by decide, rfl⟩).1 2

/-- C5 (amended): on every reachable state, the chronological query
returns the full record set sorted non-decreasing by the
`(logDate, positionTime)` pair; the sort is stable, so records with
equal keys keep their store (insertion) order — ties are NOT reordered
by ascending id. -/
theorem C5_chronological_sorted_stable {s : DMState} {now : Int} (h : Reachable s) :
    ((getChronologicalLogs s now).1).Pairwise (fun a b => chronoLe a b = true) ∧
    ((getChronologicalLogs s now).1).Perm s.navigationLogs ∧
    (∀ k, keyFilter k (getChronologicalLogs s now).1 = keyFilter k s.navigationLogs) := by
  have hs := inv_reachable h
  have hf : (getChronologicalLogs s now).1 = chronoSort s.navigationLogs :=
    getChrono_fst hs
  refine ⟨?_, ?_, ?_⟩ <;> rw [hf]
  · exact chronoSort_pairwise s.navigationLogs
  · exact chronoSort_perm s.navigationLogs
  · intro k
    exact keyFilter_chronoSort k s.navigationLogs

theorem C5_chronological_sorted_stable_witness :
    ((getChronologicalLogs stateAB 300).1).Perm stateAB.navigationLogs :=
  (C5_chronological_sorted_stable
    ⟨[Op.add 100 dataA, Op.add 200 dataB], by decide, rfl⟩).2.1

/-- C5 counterexample: two adds with identical `(logDate, positionTime)`
keys, inserted with ids 2 then 1.  The chronological query returns them
in insertion order `[2, 1]`, not in the ascending id order `[1, 2]` the
spec prescribes for ties. -/
theorem C5_counterexample_ties_not_by_id :
    goodRun initState [Op.add 100 dataA, Op.add 200 dataB] = true ∧
    chronoKey (addRecOf 100 dataA) = chronoKey (addRecOf 200 dataB) ∧
    (addRecOf 200 dataB).id < (addRecOf 100 dataA).id ∧
    (getChronologicalLogs stateAB 300).1.map (fun r => r.id) = [2, 1] := by
  decide

/-- C7: starting from a state with no cached entry for the signature
`dateRange_a_b`, the first call computes the filtered payload from the
store (a miss), and a second call within the TTL returns the identical
payload as a cache hit; any successful intervening update removes that
cache entry, so the next call recomputes its payload from the
then-current store (again a miss). -/
theorem C7_dateRange_cache (s : DMState) (now1 now2 : Int) (a b : String)
    (hmiss : jGet s.cache ("dateRange_" ++ a ++ "_" ++ b) = none)
    (hfresh : now2 - now1 ≤ cacheTTL) :
    ((getLogsByDateRange s now1 a b).1 =
        s.navigationLogs.filter (fun r => inDateRange r a b) ∧
      (getLogsByDateRange s now1 a b).2.1 = false ∧
      (getLogsByDateRange (getLogsByDateRange s now1 a b).2.2 now2 a b).1 =
        (getLogsByDateRange s now1 a b).1 ∧
      (getLogsByDateRange (getLogsByDateRange s now1 a b).2.2 now2 a b).2.1 = true) ∧
    (∀ s2 : DMState, ∀ idArg : Int, ∀ data : LogData,
      (updateNavigationLog s2 now2 idArg data).1.isSome = true →
      jGet (updateNavigationLog s2 now2 idArg data).2.cache
        ("dateRange_" ++ a ++ "_" ++ b) = none ∧
      (getLogsByDateRange (updateNavigationLog s2 now2 idArg data).2 now2 a b).1 =
        (updateNavigationLog s2 now2 idArg data).2.navigationLogs.filter
          (fun r => inDateRange r a b) ∧
      (getLogsByDateRange (updateNavigationLog s2 now2 idArg data).2 now2 a b).2.1 =
        false) := by
  constructor
  · have hget1 : getCached s now1 ("dateRange_" ++ a ++ "_" ++ b) =
        (none, { s with cache := jDelete s.cache ("dateRange_" ++ a ++ "_" ++ b) }) := by
      unfold getCached
      rw [hmiss]
    have hr1 : getLogsByDateRange s now1 a b =
        (s.navigationLogs.filter (fun r => inDateRange r a b), false,
          setCached { s with cache := jDelete s.cache ("dateRange_" ++ a ++ "_" ++ b) }
            now1 ("dateRange_" ++ a ++ "_" ++ b)
            (s.navigationLogs.filter (fun r => inDateRange r a b))) := by
      unfold getLogsByDateRange
      dsimp only
      rw [hget1]
    have hjg : jGet (setCached
        { s with cache := jDelete s.cache ("dateRange_" ++ a ++ "_" ++ b) }
        now1 ("dateRange_" ++ a ++ "_" ++ b)
        (s.navigationLogs.filter (fun r => inDateRange r a b))).cache
        ("dateRange_" ++ a ++ "_" ++ b) =
        some (s.navigationLogs.filter (fun r => inDateRange r a b), now1) :=
      jGet_setCached_self _ _ _ _
    have hget2 : getCached (setCached
        { s with cache := jDelete s.cache ("dateRange_" ++ a ++ "_" ++ b) }
        now1 ("dateRange_" ++ a ++ "_" ++ b)
        (s.navigationLogs.filter (fun r => inDateRange r a b))) now2
        ("dateRange_" ++ a ++ "_" ++ b) =
        (some (s.navigationLogs.filter (fun r => inDateRange r a b)),
          setCached { s with cache := jDelete s.cache ("dateRange_" ++ a ++ "_" ++ b) }
            now1 ("dateRange_" ++ a ++ "_" ++ b)
            (s.navigationLogs.filter (fun r => inDateRange r a b))) := by
      unfold getCached
      rw [hjg]
      dsimp only
      rw [if_neg (not_lt.mpr hfresh)]
    refine ⟨?_, ?_, ?_, ?_⟩
    · rw [hr1]
    · rw [hr1]
    · rw [hr1]
      show (getLogsByDateRange _ now2 a b).1 = _
      unfold getLogsByDateRange
      dsimp only
      rw [hget2]
    · rw [hr1]
      show (getLogsByDateRange _ now2 a b).2.1 = true
      unfold getLogsByDateRange
      dsimp only
      rw [hget2]
  · intro s2 idArg data hupd
    have hc : (updateNavigationLog s2 now2 idArg data).2.cache =
        mutationInvalidate s2.cache := by
      cases hrep : replaceFirstById now2 idArg data s2.navigationLogs with
      | none => simp [updateNavigationLog, hrep] at hupd
      | some p =>
          obtain ⟨o, u, logs⟩ := p
          simp only [updateNavigationLog, hrep]
          rw [invalidateCaches_mutation_cache, updateIndexes_cache,
            removeFromIndexes_cache]
    have hnone : jGet (updateNavigationLog s2 now2 idArg data).2.cache
        ("dateRange_" ++ a ++ "_" ++ b) = none := by
      rw [hc, jGet_mutationInvalidate]
      simp [jsStartsWith_dateRange_key a b]
    have hget3 : getCached (updateNavigationLog s2 now2 idArg data).2 now2
        ("dateRange_" ++ a ++ "_" ++ b) =
        (none, { (updateNavigationLog s2 now2 idArg data).2 with
          cache := jDelete (updateNavigationLog s2 now2 idArg data).2.cache
            ("dateRange_" ++ a ++ "_" ++ b) }) := by
      unfold getCached
      rw [hnone]
    refine ⟨hnone, ?_, ?_⟩
    · unfold getLogsByDateRange
      dsimp only
      rw [hget3]
    · unfold getLogsByDateRange
      dsimp only
      rw [hget3]

theorem C7_dateRange_cache_witness :
    (getLogsByDateRange stateAB 300 "2024-01-01" "2024-01-02").2.1 = false ∧
    (getLogsByDateRange
      (getLogsByDateRange stateAB 300 "2024-01-01" "2024-01-02").2.2
      400 "2024-01-01" "2024-01-02").2.1 = true := by
  have h := C7_dateRange_cache stateAB 300 400 "2024-01-01" "2024-01-02"
    (by decide) (by decide)
  exact ⟨h.1.2.1, h.1.2.2.2⟩

theorem cuScan_dir {s : String} {deg : Nat} {m : Nat × List Char} {dir : Char}
    (h : cuScan s = some (deg, m, dir)) : isDirChar dir = true := by
  unfold cuScan at h
  dsimp only at h
  rcases hsp : s.toList.span Char.isDigit with ⟨ds, rest⟩
  rw [hsp] at h
  dsimp only at h
  split at h
  · cases h
  · split at h <;> try cases h
    split at h <;> try cases h
    split at h <;> try cases h
    split at h
    case isTrue hqd =>
        simp only [Option.some.injEq, Prod.mk.injEq] at h
        obtain ⟨h1, h2, h3⟩ := h
        rw [← h3]
        exact hqd.2
    case isFalse => cases h

/-- C8: `CoordinateUtils.parseCoordinate` evaluates the spec examples
exactly — `20°56.1'N` to `4187/200 = 20.935` (within `1e-3` of `20.935`),
`158°03.0'W` to `-3161/20 = -158.05`, rejects `20°61.0'N` (minutes ≥ 60)
and trailing garbage, and accepts `91°00.0'N` as `91` (degree range is
not the parser's concern); in general every accepted string passes the
anchored regex scan with a direction letter in `{N, S, E, W}` and
minutes in `[0, 60)`, and its value is `degrees + minutes/60`, negated
for `S`/`W`; every scanned string with minutes `≥ 60` is rejected. -/
theorem C8_parseCoordinate_contract :
    (parseCoordinate latCu = some (4187 / 200) ∧
      |(4187 / 200 : ℚ) - 20935 / 1000| ≤ 1 / 1000) ∧
    parseCoordinate lonCu = some (-(3161 / 20)) ∧
    parseCoordinate bad61 = none ∧
    parseCoordinate lat91 = some 91 ∧
    parseCoordinate garbled = none ∧
    (∀ s : String, ∀ q : ℚ, parseCoordinate s = some q →
      ∃ deg : Nat, ∃ m : Nat × List Char, ∃ dir : Char,
        cuScan s = some (deg, m, dir) ∧ isDirChar dir = true ∧
        minutesVal m.1 m.2 < 60 ∧ q = signedDecimal deg (minutesVal m.1 m.2) dir) ∧
    (∀ s : String, ∀ deg : Nat, ∀ m : Nat × List Char, ∀ dir : Char,
      cuScan s = some (deg, m, dir) → 60 ≤ minutesVal m.1 m.2 →
      parseCoordinate s = none) := by
  have hlat : parseCoordinate latCu = some (4187 / 200) := by
    have hscan : cuScan latCu = some (20, (56, ['1']), 'N') := by decide
    have hd : digitsVal ['1'] = 1 := by decide
    have hmv : minutesVal 56 ['1'] = 561 / 10 := by
      simp only [minutesVal, fracVal, hd]
      norm_num
    unfold parseCoordinate
    rw [hscan]
    dsimp only
    rw [hmv]
    rw [if_neg (by norm_num)]
    congr 1
    simp only [signedDecimal]
    rw [if_neg (by decide)]
    norm_num
  have hlon : parseCoordinate lonCu = some (-(3161 / 20)) := by
    have hscan : cuScan lonCu = some (158, (3, ['0']), 'W') := by decide
    have hd : digitsVal ['0'] = 0 := by decide
    have hmv : minutesVal 3 ['0'] = 3 := by
      simp only [minutesVal, fracVal, hd]
      norm_num
    unfold parseCoordinate
    rw [hscan]
    dsimp only
    rw [hmv]
    rw [if_neg (by norm_num)]
    congr 1
    simp only [signedDecimal]
    rw [if_pos (by decide)]
    norm_num
  have h61 : parseCoordinate bad61 = none := by
    have hscan : cuScan bad61 = some (20, (61, ['0']), 'N') := by decide
    have hd : digitsVal ['0'] = 0 := by decide
    have hmv : minutesVal 61 ['0'] = 61 := by
      simp only [minutesVal, fracVal, hd]
      norm_num
    unfold parseCoordinate
    rw [hscan]
    dsimp only
    rw [hmv]
    rw [if_pos (by norm_num)]
  have h91 : parseCoordinate lat91 = some 91 := by
    have hscan : cuScan lat91 = some (91, (0, ['0']), 'N') := by decide
    unfold parseCoordinate
    rw [hscan]
    dsimp only
    rw [minutesVal_z]
    rw [if_neg (by norm_num)]
    congr 1
    simp only [signedDecimal]
    rw [if_neg (by decide)]
    norm_num
  have hgar : parseCoordinate garbled = none := by
    have hscan : cuScan garbled = none := by decide
    unfold parseCoordinate
    rw [hscan]
  refine ⟨⟨hlat, by norm_num [abs_le]⟩, hlon, h61, h91, hgar, ?_, ?_⟩
  · intro s q h
    unfold parseCoordinate at h
    cases hc : cuScan s with
    | none => rw [hc] at h; cases h
    | some p =>
        obtain ⟨deg, m, dir⟩ := p
        rw [hc] at h
        dsimp only at h
        split at h
        · cases h
        case isFalse hlt =>
            injection h with h
            exact ⟨deg, m, dir, rfl, cuScan_dir hc, not_le.mp hlt, h.symm⟩
  · intro s deg m dir hscan hge
    unfold parseCoordinate
    rw [hscan]
    dsimp only
    rw [if_pos hge]

/-- C6 (amended): on a cache miss for the requested box signature, the
bounding-box query over any reachable state is exact: it returns no
record whose parsed coordinates fall outside the box, and it returns
every store record whose coordinates parse and fall inside the box —
the coarse grid sweep plus the exact re-check lose nothing.  (With a
live cached entry for the signature the payload may instead be stale,
because mutations never invalidate `bounds_` entries — see the
counterexample.) -/
theorem C6_bounds_query_exact_on_miss {s : DMState} {now : Int} {ne sw : ℚ × ℚ}
    (hreach : Reachable s) (hmiss : jGet s.cache (boundsKey ne sw) = none) :
    (∀ r ∈ (getLogsInBounds s now ne sw).1, inBox sw ne r = true) ∧
    (∀ r ∈ s.navigationLogs, inBox sw ne r = true →
      r ∈ (getLogsInBounds s now ne sw).1) := by
  have hs := inv_reachable hreach
  have hgs : (0 : ℚ) < gridSize := by norm_num [gridSize]
  constructor
  · intro r hr
    rw [getLogsInBounds_fst_miss hmiss] at hr
    split at hr
    · cases hr
    · obtain ⟨x, hx, hr⟩ := List.mem_flatMap.mp hr
      obtain ⟨y, hy, hr⟩ := List.mem_flatMap.mp hr
      exact List.of_mem_filter hr
  · intro r hrnav hbox
    have hco : ∃ q : ℚ × ℚ, dmCoords r = some q ∧
        sw.1 ≤ q.1 ∧ q.1 ≤ ne.1 ∧ sw.2 ≤ q.2 ∧ q.2 ≤ ne.2 := by
      unfold inBox at hbox
      cases hc : dmCoords r with
      | none => rw [hc] at hbox; cases hbox
      | some q =>
          rw [hc] at hbox
          dsimp only at hbox
          have hb := of_decide_eq_true hbox
          exact ⟨q, rfl, hb.1, hb.2.1, hb.2.2.1, hb.2.2.2⟩
    obtain ⟨q, hq, h1, h2, h3, h4⟩ := hco
    obtain ⟨g1, g2, g3, g4⟩ := hs.boundsOK r hrnav q hq
    rw [getLogsInBounds_fst_miss hmiss]
    rw [if_neg (by rintro (hcon | hcon | hcon | hcon) <;> linarith)]
    have hcell : gridCellOf r = some (⌊q.2 / gridSize⌋, ⌊q.1 / gridSize⌋) := by
      simp [gridCellOf, hq]
    have hrb : r ∈ bucketAt s.spatialGrid (⌊q.2 / gridSize⌋, ⌊q.1 / gridSize⌋) :=
      (hs.gridPerKey _).mem_iff.mpr
        (List.mem_filter.mpr ⟨hrnav, by simp [hcell]⟩)
    refine List.mem_flatMap.mpr ⟨⌊q.2 / gridSize⌋, ?_, ?_⟩
    · rw [mem_intRange]
      constructor
      · exact Int.floor_le_floor ((div_le_div_iff_of_pos_right hgs).mpr h3)
      · exact le_trans
          (Int.floor_le_floor ((div_le_div_iff_of_pos_right hgs).mpr h4))
          (Int.floor_le_ceil _)
    · refine List.mem_flatMap.mpr ⟨⌊q.1 / gridSize⌋, ?_, ?_⟩
      · rw [mem_intRange]
        constructor
        · exact Int.floor_le_floor ((div_le_div_iff_of_pos_right hgs).mpr h1)
        · exact le_trans
            (Int.floor_le_floor ((div_le_div_iff_of_pos_right hgs).mpr h2))
            (Int.floor_le_ceil _)
      · exact List.mem_filter.mpr ⟨hrb, hbox⟩

theorem C6_bounds_query_exact_on_miss_witness :
    recZ1 ∈ (getLogsInBounds S3z 500 ((1 : ℚ), (1 : ℚ)) ((-1 : ℚ), (-1 : ℚ))).1 :=
  (C6_bounds_query_exact_on_miss ⟨opsC6, goodRun_C6, stateC6_eq⟩ (by decide)).2
    recZ1 (by decide)
    (by unfold inBox; rw [dmCoords_recZ1]; decide)

/-- C6 counterexample: a well-formed run caches a bounds payload, then
adds a record lying inside that very box.  The mutation leaves the
`bounds_` cache entry alive, so the next identical query (within the
TTL) returns the stale payload: the new in-box record is in the store
and inside the box but missing from the result — the query is not exact
on every store state. -/
theorem C6_counterexample_stale_cache :
    goodRun initState opsC6 = true ∧
    recZ2 ∈ stateC6.navigationLogs ∧
    inBox sw0 ne0 recZ2 = true ∧
    recZ2 ∉ (getLogsInBounds stateC6 400 ne0 sw0).1 := by
  refine ⟨goodRun_C6, ?_, inBox_recZ2, ?_⟩
  · rw [stateC6_eq]
    decide
  · rw [stateC6_eq, qBounds_S3z]
    decide

end RangerCVA61